import Mathlib

/-
Verification development for the Vyntra workflow execution engine.

The definitions below are a shallow embedding of the TypeScript source:
  * apps/web/src/lib/simulate.ts        (simulated engine)
  * supabase functions run-workflow     (live engine, same control flow)
  * shared/schema/workflow.ts           (document schema / validator)
  * apps/web/src/lib/semanticEdit.ts    (semantic edit commands)
  * apps/web/src/lib/workflow.ts        (validateWorkflowDoc wrapper)

Modelling conventions:
  * JavaScript runtime values are modelled by the mutual inductive types
    JVal / JArr / JObj (arrays and objects carry their own spine so that
    all recursion is structural and kernel-reducible).  JS undefined is
    the constructor JVal.undefVal.  Numbers are modelled as exact rationals
    (JS uses IEEE doubles; every numeric literal appearing in the claims
    is exactly representable, and NaN is modelled by the separate
    JsNum.nan case used for Number() coercion results).
  * JS property lookup (`token in obj`) is modelled as own-property lookup
    on JSON-shaped data; prototype-chain properties of host objects are
    outside the model.  Array own properties are the indices and "length".
  * JS strict equality (===) is modelled structurally; it agrees with JS
    on all primitive values.  JS compares object operands by reference,
    which a value-level embedding cannot express.
  * Array.prototype.sort is a stable sort by the given comparator; it is
    modelled by a stable insertion sort with the comparator-induced order.
  * String.prototype.toLowerCase and localeCompare are modelled by
    per-character toLower and code-point lexicographic comparison.
  * Wall-clock step timestamps (Date.now) are outside the model; step
    records keep every execution-relevant field.
-/

namespace Vyntra

mutual

/-- JSON-like JavaScript runtime value (JVal.undefVal models JS undefined). -/
inductive JVal : Type where
  | undefVal : JVal
  | null : JVal
  | bool : Bool → JVal
  | num : ℚ → JVal
  | str : String → JVal
  | arr : JArr → JVal
  | obj : JObj → JVal
deriving Repr

/-- Spine of a JS array value. -/
inductive JArr : Type where
  | nil : JArr
  | cons : JVal → JArr → JArr
deriving Repr

/-- Spine of a JS object value: ordered key/value entries. -/
inductive JObj : Type where
  | nil : JObj
  | cons : String → JVal → JObj → JObj
deriving Repr

end

/-- List view of an array spine. -/
def JArr.toList : JArr → List JVal
  | .nil => []
  | .cons v tl => v :: tl.toList

/-- Array spine from a list. -/
def JArr.ofList : List JVal → JArr
  | [] => .nil
  | v :: tl => .cons v (JArr.ofList tl)

/-- List view of an object spine. -/
def JObj.toList : JObj → List (String × JVal)
  | .nil => []
  | .cons k v tl => (k, v) :: tl.toList

/-- Object spine from an entry list. -/
def JObj.ofList : List (String × JVal) → JObj
  | [] => .nil
  | (k, v) :: tl => .cons k v (JObj.ofList tl)

/-- Number of elements of an array spine. -/
def JArr.length : JArr → Nat
  | .nil => 0
  | .cons _ tl => 1 + tl.length

/-- Index read on an array spine (a[i], absent index gives none). -/
def JArr.get : JArr → Nat → Option JVal
  | .nil, _ => none
  | .cons v _, 0 => some v
  | .cons _ tl, n + 1 => tl.get n

/-- First-occurrence key read on an object spine (JS own-property read). -/
def JObj.get : JObj → String → Option JVal
  | .nil, _ => none
  | .cons k v tl, key => if k = key then some v else tl.get key

/-- Execution context: a JS record from string keys to values. -/
abbrev Ctx := List (String × JVal)

/-- First-occurrence association-list lookup (JS own-property read). -/
def jsGet (fields : Ctx) (k : String) : Option JVal :=
  (fields.find? (fun p => p.1 = k)).map (·.2)

/-- JS property write `o[k] = v`: replaces the first binding of k in place,
or appends a new binding (JS objects keep first-insertion key order). -/
def jsSet (fields : Ctx) (k : String) (v : JVal) : Ctx :=
  match fields with
  | [] => [(k, v)]
  | (k0, v0) :: rest =>
      if k0 = k then (k0, v) :: rest else (k0, v0) :: jsSet rest k v

/-- JS truthiness of a runtime value (NaN cannot inhabit JVal.num). -/
def jsTruthy : JVal → Bool
  | .undefVal => false
  | .null => false
  | .bool b => b
  | .num q => q ≠ 0
  | .str s => s ≠ ""
  | .arr _ => true
  | .obj _ => true

/-- JS whitespace characters (model of the \s class and of trimming). -/
def isWsChar (c : Char) : Bool :=
  c = ' ' ∨ c = '\t' ∨ c = '\n' ∨ c = '\r'

/-- Characters matched by the regex `.` metacharacter (no line terminators). -/
def isDotChar (c : Char) : Bool :=
  ¬(c = '\n' ∨ c = '\r')

/-- Character-level model of String.prototype.trim. -/
def trimChars (s : List Char) : List Char :=
  ((s.dropWhile isWsChar).reverse.dropWhile isWsChar).reverse

/-- String.prototype.trim. -/
def jsTrim (s : String) : String := String.mk (trimChars s.toList)

/-- ASCII decimal digit test. -/
def isDigitChar (c : Char) : Bool := '0' ≤ c ∧ c ≤ '9'

/-- Model of the regex test /^\d+$/. -/
def isAllDigits (s : List Char) : Bool := s ≠ [] ∧ s.all isDigitChar

/-- Numeric value of a nonempty digit string (Number("007") = 7). -/
def natOfDigits (s : List Char) : Nat :=
  s.foldl (fun acc c => acc * 10 + (c.toNat - '0'.toNat)) 0

/-- Decimal rendering of a natural number (kernel-reducible). -/
def natToString (n : Nat) : String := String.mk (Nat.toDigits 10 n)

/-- Decimal rendering of an integer. -/
def intToString : Int → String
  | .ofNat n => natToString n
  | .negSucc n => "-" ++ natToString (n + 1)

/-- Long-division digits of num/den, fuel-bounded; stops when the
remainder hits zero.  Fuel 20 mirrors the precision limit of a double:
the claims never depend on digits beyond that point. -/
def fracDigits : Nat → Nat → Nat → List Char
  | 0, _, _ => []
  | _ + 1, 0, _ => []
  | fuel + 1, num, den =>
      let d := (num * 10) / den
      let r := (num * 10) % den
      Char.ofNat ('0'.toNat + d) :: fracDigits fuel r den

/-- Decimal rendering of a rational (model of JS number-to-string for the
finite-decimal values JSON data carries; integers render exactly). -/
def numToString (q : ℚ) : String :=
  if q.den = 1 then intToString q.num
  else
    let sign := if q.num < 0 then "-" else ""
    let n := q.num.natAbs
    sign ++ natToString (n / q.den) ++ "." ++ String.mk (fracDigits 20 (n % q.den) q.den)

/-- JS per-character lowercasing (String.prototype.toLowerCase modelled
per code point). -/
def lowerChars (s : List Char) : List Char := s.map Char.toLower

/-- String.prototype.toLowerCase. -/
def jsToLower (s : String) : String := String.mk (lowerChars s.toList)

/-- Code-point lexicographic strict order on char lists (model of the
sign of localeCompare). -/
def charsLt : List Char → List Char → Bool
  | [], [] => false
  | [], _ :: _ => true
  | _ :: _, [] => false
  | a :: as, b :: bs =>
      if a.toNat < b.toNat then true
      else if b.toNat < a.toNat then false
      else charsLt as bs

/-- Lexicographic strict order on strings. -/
def strLt (a b : String) : Bool := charsLt a.toList b.toList

/-- Contiguous-sublist test on char lists. -/
def containsSub (needle : List Char) : List Char → Bool
  | [] => needle.isEmpty
  | c :: rest => needle.isPrefixOf (c :: rest) || containsSub needle rest

/-- Substring test: String.prototype.includes(needle). -/
def strIncludes (hay needle : String) : Bool :=
  containsSub needle.toList hay.toList

/-- Result of JS Number() coercion: NaN, a signed infinity, or a finite
value (finite doubles modelled as exact rationals). -/
inductive JsNum : Type where
  | nan : JsNum
  | inf : Bool → JsNum
  | val : ℚ → JsNum
deriving DecidableEq, Repr

/-- JS `<` on coerced numbers; any NaN operand yields false. -/
def jsNumLt : JsNum → JsNum → Bool
  | .nan, _ => false
  | _, .nan => false
  | .inf a, .inf b => !a && b
  | .inf a, .val _ => !a
  | .val _, .inf b => b
  | .val x, .val y => x < y

/-- JS `<=` on coerced numbers; any NaN operand yields false. -/
def jsNumLe : JsNum → JsNum → Bool
  | .nan, _ => false
  | _, .nan => false
  | x, y => ! jsNumLt y x

/-- Number.isFinite on a coercion result. -/
def JsNum.isFinite : JsNum → Bool
  | .val _ => true
  | _ => false

/-- Decimal string grammar of Number(): optional sign, digits with an
optional fractional part or a bare fractional part, optional exponent.
Returns none when the character list is not entirely such a literal. -/
def parseDecimalChars (s : List Char) : Option ℚ :=
  let signSplit : Int × List Char :=
    match s with
    | '+' :: rest => (1, rest)
    | '-' :: rest => (-1, rest)
    | _ => (1, s)
  let sign := signSplit.1
  let s1 := signSplit.2
  let intPart := s1.takeWhile isDigitChar
  let s2 := s1.drop intPart.length
  let fracSplit : List Char × List Char :=
    match s2 with
    | '.' :: rest => (rest.takeWhile isDigitChar, rest.dropWhile isDigitChar)
    | _ => ([], s2)
  let fracPart := fracSplit.1
  let s3 := fracSplit.2
  if intPart = [] ∧ fracPart = [] then none
  else
    let mantissa : Int := sign * (natOfDigits (intPart ++ fracPart) : Int)
    let fracLen := fracPart.length
    match s3 with
    | [] =>
        some (mkRat mantissa (10 ^ fracLen))
    | e :: rest =>
        if e = 'e' ∨ e = 'E' then
          let esignSplit : Bool × List Char :=
            match rest with
            | '+' :: r => (true, r)
            | '-' :: r => (false, r)
            | _ => (true, rest)
          let esign := esignSplit.1
          let rest1 := esignSplit.2
          let eDigits := rest1.takeWhile isDigitChar
          if eDigits = [] ∨ rest1.drop eDigits.length ≠ [] then none
          else
            let ex := natOfDigits eDigits
            if esign then
              some (mkRat (mantissa * (10 : Int) ^ ex) (10 ^ fracLen))
            else
              some (mkRat mantissa (10 ^ (fracLen + ex)))
        else none

/-- Digit value of a hex character, if any. -/
def hexDigitVal (c : Char) : Option Nat :=
  if '0' ≤ c ∧ c ≤ '9' then some (c.toNat - '0'.toNat)
  else if 'a' ≤ c ∧ c ≤ 'f' then some (c.toNat - 'a'.toNat + 10)
  else if 'A' ≤ c ∧ c ≤ 'F' then some (c.toNat - 'A'.toNat + 10)
  else none

/-- Radix-literal body parser for the 0x/0o/0b forms of Number(). -/
def parseRadixChars (radix : Nat) (s : List Char) : Option ℚ :=
  if s = [] then none
  else
    (s.foldl
      (fun acc c =>
        match acc, hexDigitVal c with
        | some a, some d => if d < radix then some (a * radix + d) else none
        | _, _ => none)
      (some 0)).map (fun n => mkRat (n : Int) 1)

/-- Model of JS Number() applied to a string: trims, accepts the empty
string as 0, the Infinity forms, 0x/0o/0b radix literals (unsigned, per
JS), and decimal literals; anything else is NaN. -/
def jsStringToNumber (s : String) : JsNum :=
  let t := trimChars s.toList
  if t = [] then .val 0
  else if t = "Infinity".toList ∨ t = "+Infinity".toList then .inf true
  else if t = "-Infinity".toList then .inf false
  else
    match t with
    | '0' :: x :: rest =>
        if x = 'x' ∨ x = 'X' then
          match parseRadixChars 16 rest with
          | some q => .val q
          | none => .nan
        else if x = 'o' ∨ x = 'O' then
          match parseRadixChars 8 rest with
          | some q => .val q
          | none => .nan
        else if x = 'b' ∨ x = 'B' then
          match parseRadixChars 2 rest with
          | some q => .val q
          | none => .nan
        else
          match parseDecimalChars t with
          | some q => .val q
          | none => .nan
    | _ =>
        match parseDecimalChars t with
        | some q => .val q
        | none => .nan

mutual

/-- Element rendering used by Array.prototype.toString. -/
def jsArrElemStr : JVal → String
  | .undefVal => ""
  | .null => ""
  | .bool b => if b then "true" else "false"
  | .num q => numToString q
  | .str s => s
  | .obj _ => "[object Object]"
  | .arr xs => jsArrJoin xs

/-- Array.prototype.toString: elements joined by commas. -/
def jsArrJoin : JArr → String
  | .nil => ""
  | .cons v .nil => jsArrElemStr v
  | .cons v tl => jsArrElemStr v ++ "," ++ jsArrJoin tl

end

/-- Model of JS Number() applied to an arbitrary value (ToNumber):
undefined is NaN, null/booleans map to 0/1, strings parse, arrays coerce
through their join string, plain objects are NaN. -/
def toNumber : JVal → JsNum
  | .undefVal => .nan
  | .null => .val 0
  | .bool b => .val (if b then 1 else 0)
  | .num q => .val q
  | .str s => jsStringToNumber s
  | .arr xs => jsStringToNumber (jsArrJoin xs)
  | .obj _ => .nan

mutual

/-- Structural equality on values backing the model of JS ===.  Exact on
primitives; composite values are compared structurally, whereas JS
compares them by reference (see the file header). -/
def jsStrictEq : JVal → JVal → Bool
  | .undefVal, .undefVal => true
  | .null, .null => true
  | .bool x, .bool y => x = y
  | .num x, .num y => x = y
  | .str x, .str y => x = y
  | .arr xs, .arr ys => jsStrictEqArr xs ys
  | .obj xs, .obj ys => jsStrictEqObj xs ys
  | _, _ => false

/-- Structural equality on array spines. -/
def jsStrictEqArr : JArr → JArr → Bool
  | .nil, .nil => true
  | .cons x xs, .cons y ys => jsStrictEq x y && jsStrictEqArr xs ys
  | _, _ => false

/-- Structural equality on object spines. -/
def jsStrictEqObj : JObj → JObj → Bool
  | .nil, .nil => true
  | .cons k x xs, .cons l y ys => k = l && jsStrictEq x y && jsStrictEqObj xs ys
  | _, _ => false

end

/-- Escape one character for a JSON string literal. -/
def jsonEscapeChar (c : Char) : String :=
  if c = '"' then "\\\""
  else if c = '\\' then "\\\\"
  else if c = '\n' then "\\n"
  else if c = '\r' then "\\r"
  else if c = '\t' then "\\t"
  else if c.toNat = 8 then "\\b"
  else if c.toNat = 12 then "\\f"
  else if c.toNat < 32 then
    "\\u00" ++ String.mk [(Nat.toDigits 16 (c.toNat / 16)).headD '0',
                          (Nat.toDigits 16 (c.toNat % 16)).headD '0']
  else String.mk [c]

/-- JSON string-literal escaping. -/
def jsonEscape (s : String) : String :=
  String.join (s.toList.map jsonEscapeChar)

mutual

/-- JSON.stringify(v) (compact form): none models the JS result
`undefined`; undefined object entries are omitted and undefined array
elements serialize as null. -/
def jsonStringify : JVal → Option String
  | .undefVal => none
  | .null => some "null"
  | .bool b => some (if b then "true" else "false")
  | .num q => some (numToString q)
  | .str s => some ("\"" ++ jsonEscape s ++ "\"")
  | .arr xs => some ("[" ++ jsonStringifyArr xs ++ "]")
  | .obj fs =>
      some ("\x7b" ++ String.intercalate "," (jsonStringifyObj fs) ++ "\x7d")

/-- Comma-joined compact serializations of array elements. -/
def jsonStringifyArr : JArr → String
  | .nil => ""
  | .cons v .nil => (jsonStringify v).getD "null"
  | .cons v tl => (jsonStringify v).getD "null" ++ "," ++ jsonStringifyArr tl

/-- Compact serializations of defined object entries. -/
def jsonStringifyObj : JObj → List String
  | .nil => []
  | .cons k v tl =>
      match jsonStringify v with
      | none => jsonStringifyObj tl
      | some sv => ("\"" ++ jsonEscape k ++ "\":" ++ sv) :: jsonStringifyObj tl

end

/-- Indentation padding used by pretty JSON. -/
def pad (n : Nat) : String := String.mk (List.replicate n ' ')

mutual

/-- JSON.stringify(v, null, 2): two-space indented form. -/
def jsonStringifyPretty : Nat → JVal → Option String
  | _, .undefVal => none
  | _, .null => some "null"
  | _, .bool b => some (if b then "true" else "false")
  | _, .num q => some (numToString q)
  | _, .str s => some ("\"" ++ jsonEscape s ++ "\"")
  | _, .arr .nil => some "[]"
  | ind, .arr xs =>
      some ("[\n" ++ String.intercalate ",\n" (jsonPrettyArr (ind + 2) xs) ++
        "\n" ++ pad ind ++ "]")
  | ind, .obj fs =>
      let items := jsonPrettyObj (ind + 2) fs
      if items.isEmpty then some "{}"
      else some ("\x7b\n" ++ String.intercalate ",\n" items ++ "\n" ++ pad ind ++ "\x7d")

/-- Pretty-printed array elements, one string per element. -/
def jsonPrettyArr (ind : Nat) : JArr → List String
  | .nil => []
  | .cons v tl =>
      (pad ind ++ (jsonStringifyPretty ind v).getD "null") :: jsonPrettyArr ind tl

/-- Pretty-printed defined object entries, one string per entry. -/
def jsonPrettyObj (ind : Nat) : JObj → List String
  | .nil => []
  | .cons k v tl =>
      match jsonStringifyPretty ind v with
      | none => jsonPrettyObj ind tl
      | some sv => (pad ind ++ "\"" ++ jsonEscape k ++ "\": " ++ sv) :: jsonPrettyObj ind tl

end

mutual

/-- JSON round trip JSON.parse(JSON.stringify(v)) on a defined value:
undefined object entries disappear and undefined array elements become
null.  The sources only ever clone plain objects, where the round trip
is total. -/
def deepCloneV : JVal → JVal
  | .arr xs => .arr (deepCloneA xs)
  | .obj fs => .obj (deepCloneO fs)
  | v => v

/-- Round trip on array spines. -/
def deepCloneA : JArr → JArr
  | .nil => .nil
  | .cons .undefVal tl => .cons .null (deepCloneA tl)
  | .cons v tl => .cons (deepCloneV v) (deepCloneA tl)

/-- Round trip on object spines. -/
def deepCloneO : JObj → JObj
  | .nil => .nil
  | .cons _ .undefVal tl => deepCloneO tl
  | .cons k v tl => .cons k (deepCloneV v) (deepCloneO tl)

end

/-- Model of the deepClone helper of the sources on an execution context. -/
def deepCloneCtx (ctx : Ctx) : Ctx := (deepCloneO (JObj.ofList ctx)).toList

/-
Path Resolver: tokenizeJsonPath / resolveJsonPath
(simulate.ts lines 24-67; the run-workflow copy lines 55-87 is identical).
-/

/-- Bracket-quoted body scanner: consumes characters of a quoted token
body (any character except the quote and backslash, or a backslash
followed by any character), returning the body as written (the source
slices the raw match without unescaping) and the rest after the closing
quote. -/
def quoteBody (q : Char) : List Char → Option (List Char × List Char)
  | [] => none
  | c :: rest =>
      if c = q then some ([], rest)
      else if c = '\\' then
        match rest with
        | [] => none
        | d :: rest1 =>
            (quoteBody q rest1).map (fun p => (c :: d :: p.1, p.2))
      else
        (quoteBody q rest).map (fun p => (c :: p.1, p.2))

/-- Bracket alternative of the token regex, applied to the characters
after an opening bracket: digits, a double-quoted or a single-quoted
body, followed by the closing bracket.  Returns the token and the rest
after the closing bracket. -/
def bracketMatch (s : List Char) : Option (String × List Char) :=
  let digitsAlt : Option (String × List Char) :=
    let ds := s.takeWhile isDigitChar
    match ds, s.drop ds.length with
    | [], _ => none
    | _, ']' :: rest => some (String.mk ds, rest)
    | _, _ => none
  let quoteAlt (q : Char) : Option (String × List Char) :=
    match s with
    | c :: rest =>
        if c = q then
          match quoteBody q rest with
          | some (body, ']' :: rest1) => some (String.mk body, rest1)
          | _ => none
        else none
    | [] => none
  digitsAlt <|> quoteAlt '"' <|> quoteAlt '\''

/-- Fueled global scan of the token regex of the sources (either a
maximal run of characters outside the separator class, or a bracketed
index that is all digits or a double- or single-quoted body):
separator characters start no match and are skipped, an opening bracket
attempts the bracket alternative (skipped on failure, exactly as the
regex engine advances), and any other character starts a maximal run of
non-separator characters.  Every step consumes at least one character,
so fuel s.length + 1 always completes the scan. -/
def tokScan : Nat → List Char → List String
  | 0, _ => []
  | _ + 1, [] => []
  | fuel + 1, c :: rest =>
      if c = '.' ∨ c = ']' then tokScan fuel rest
      else if c = '[' then
        match bracketMatch rest with
        | some (tok, rem) => tok :: tokScan fuel rem
        | none => tokScan fuel rest
      else
        let run := (c :: rest).takeWhile (fun d => ¬(d = '[' ∨ d = '.' ∨ d = ']'))
        String.mk run :: tokScan fuel ((c :: rest).drop run.length)

/-- Model of the prefix normalization
path.replace(/^\$\./, "").replace(/^\$/, ""). -/
def stripDollar (s : List Char) : List Char :=
  let s1 := match s with
    | '$' :: '.' :: rest => rest
    | _ => s
  match s1 with
  | '$' :: rest => rest
  | _ => s1

/-- Model of tokenizeJsonPath from the sources. -/
def tokenizeJsonPath (path : String) : List String :=
  let normalized := stripDollar path.toList
  tokScan (normalized.length + 1) normalized

/-- Loop body of resolveJsonPath: walks the tokens, indexing arrays by
all-digit tokens (JS continues with undefined on an out-of-range index)
and reading own keys of objects ("length" is the own property of an
array seen by the `in` test for a non-numeric token); any other target
returns undefined immediately. -/
def resolveTokens : JVal → List String → JVal
  | cur, [] => cur
  | .arr xs, t :: ts =>
      if isAllDigits t.toList then
        resolveTokens ((xs.get (natOfDigits t.toList)).getD .undefVal) ts
      else if t = "length" then
        resolveTokens (.num (mkRat (xs.length : Int) 1)) ts
      else .undefVal
  | .obj fs, t :: ts =>
      match fs.get t with
      | some v => resolveTokens v ts
      | none => .undefVal
  | _, _ :: _ => .undefVal

/-- Model of resolveJsonPath(input, path?).  The undefined result of the
source is JVal.undefVal; a missing or falsy (empty) path and the literal
"$" return the whole input. -/
def resolveJsonPath (input : JVal) (path : Option String) : JVal :=
  match path with
  | none => input
  | some p =>
      if p = "" ∨ p = "$" then input
      else
        match p.toList with
        | '$' :: _ => resolveTokens input (tokenizeJsonPath p)
        | _ => .undefVal

/-
Expression Evaluator: parseLiteral / resolveOperand /
evaluateConditionExpression (simulate.ts lines 69-112; the run-workflow
copy lines 89-121 is identical).
-/

/-- Runtime value of one comparison operand.  Number() applied to a
literal can produce an infinity (for the Infinity spellings), which no
JSON-shaped context value can hold, so operands get their own type. -/
inductive Operand : Type where
  | jv : JVal → Operand
  | infinity : Bool → Operand
deriving Repr

/-- Model of parseLiteral: trimmed quoted strings lose their quotes (the
source slices without unescaping), the true/false/null spellings map to
the corresponding values, anything Number() accepts becomes that number,
and everything else stays the raw trimmed string. -/
def parseLiteral (raw : String) : Operand :=
  let value := trimChars raw.toList
  let quoted : Bool :=
    match value with
    | c :: _ =>
        (c = '\'' ∧ value.getLast? = some '\'') ∨
          (c = '"' ∧ value.getLast? = some '"')
    | [] => false
  if quoted then .jv (.str (String.mk (value.drop 1).dropLast))
  else if value = "true".toList then .jv (.bool true)
  else if value = "false".toList then .jv (.bool false)
  else if value = "null".toList then .jv .null
  else
    match jsStringToNumber (String.mk value) with
    | .val q => .jv (.num q)
    | .inf pos => .infinity pos
    | .nan => .jv (.str (String.mk value))

/-- Model of resolveOperand: a trimmed operand starting with the dollar
character is a Path Resolver lookup against the context, anything else a
literal. -/
def resolveOperand (ctx : Ctx) (raw : String) : Operand :=
  let value := trimChars raw.toList
  match value with
  | '$' :: _ => .jv (resolveJsonPath (.obj (JObj.ofList ctx)) (some (String.mk value)))
  | _ => parseLiteral (String.mk value)

/-- Strict equality on operands. -/
def opStrictEq : Operand → Operand → Bool
  | .jv a, .jv b => jsStrictEq a b
  | .infinity a, .infinity b => a = b
  | _, _ => false

/-- Number() coercion of an operand. -/
def toNumberOp : Operand → JsNum
  | .jv v => toNumber v
  | .infinity pos => .inf pos

/-- Operator alternatives of the condition regex, in alternation order. -/
def condOps : List String := ["==", "!=", ">=", "<=", ">", "<"]

/-- Right-hand side of the condition regex after the operator: a greedy
whitespace run, a nonempty greedy group of non-newline characters, then
a whitespace run to the end.  Candidates are tried in backtracking
priority order (maximal leading whitespace first, then maximal group). -/
def tryRight (r : List Char) : Option (List Char) :=
  let maxWs := (r.takeWhile isWsChar).length
  (List.range (maxWs + 1)).findSome? (fun i =>
    let ws1 := maxWs - i
    let t := r.drop ws1
    let midMax := (t.takeWhile isDotChar).length
    (List.range midMax).findSome? (fun j =>
      let m := midMax - j
      if (t.drop m).all isWsChar then some (t.take m) else none))

/-- Backtracking model of the condition-expression regex (anchored
whitespace, a lazy nonempty left group of non-newline characters,
optional whitespace, one comparison operator in alternation order,
then the right-hand side).  Returns the captured left text, operator and
right text of the first match in engine priority order. -/
def condMatch (s : List Char) : Option (String × String × String) :=
  let maxA := (s.takeWhile isWsChar).length
  (List.range (maxA + 1)).findSome? (fun i =>
    let a := maxA - i
    let t := s.drop a
    let leftMax := (t.takeWhile isDotChar).length
    (List.range leftMax).findSome? (fun j =>
      let b := j + 1
      let left := t.take b
      let afterLeft := (t.drop b).dropWhile isWsChar
      condOps.findSome? (fun op =>
        if op.toList.isPrefixOf afterLeft then
          (tryRight (afterLeft.drop op.toList.length)).map
            (fun right => (String.mk left, op, String.mk right))
        else none)))

/-- Model of evaluateConditionExpression: false when the regex fails,
strict equality for the equality operators, Number()-coerced comparison
for the ordering operators. -/
def evaluateConditionExpression (ctx : Ctx) (expression : String) : Bool :=
  match condMatch expression.toList with
  | none => false
  | some (leftRaw, op, rightRaw) =>
      let left := resolveOperand ctx leftRaw
      let right := resolveOperand ctx rightRaw
      if op = "==" then opStrictEq left right
      else if op = "!=" then ! opStrictEq left right
      else if op = ">" then jsNumLt (toNumberOp right) (toNumberOp left)
      else if op = "<" then jsNumLt (toNumberOp left) (toNumberOp right)
      else if op = ">=" then jsNumLe (toNumberOp right) (toNumberOp left)
      else if op = "<=" then jsNumLe (toNumberOp left) (toNumberOp right)
      else false

/-
Node executor helpers: classifyText, summarizeText, toCsv,
resolveDbMapping (simulate.ts lines 114-157; identical copies in the
run-workflow function).
-/

/-- String coercion used as a JS property key or template interpolation
(ToPropertyKey / template literal stringification). -/
def jsPropKey : JVal → String
  | .undefVal => "undefined"
  | .null => "null"
  | .bool b => if b then "true" else "false"
  | .num q => numToString q
  | .str s => s
  | .arr xs => jsArrJoin xs
  | .obj _ => "[object Object]"

/-- Text of an input value as computed by
`typeof input === "string" ? input : JSON.stringify(input)` wrapped in
String(): a string stays itself, other values serialize, undefined
stringifies to the text "undefined". -/
def jsStringOfInput : JVal → String
  | .str s => s
  | v => (jsonStringify v).getD "undefined"

/-- Nullish coalescing read of a config key: the stored value unless the
key is absent or holds null/undefined, in which case the default. -/
def configOr (config : Ctx) (key : String) (dflt : JVal) : JVal :=
  match jsGet config key with
  | none => dflt
  | some .undefVal => dflt
  | some .null => dflt
  | some v => v

/-- Dynamic resolveJsonPath call on a config-provided path value: a
falsy path returns the whole input, a string path resolves, and any
other truthy value makes the source throw a TypeError on
path.startsWith. -/
def resolveJsonPathDyn (input : JVal) (path : JVal) : Except String JVal :=
  if ¬ jsTruthy path then .ok input
  else
    match path with
    | .str s => .ok (resolveJsonPath input (some s))
    | _ => .error "TypeError: path.startsWith is not a function"

/-- Label-list extraction of the classify branches: the config labels
value when it is an array, keeping only its strings. -/
def classifyLabels (config : Ctx) : List String :=
  match jsGet config "labels" with
  | some (.arr xs) => xs.toList.filterMap (fun v =>
      match v with
      | .str s => some s
      | _ => none)
  | _ => []

/-- Result record of the classifier. -/
structure ClassifyResult where
  label : String
  confidence : ℚ
deriving DecidableEq, Repr

/-- Stable insertion into a sorted list: the new element goes before the
first element it compares less-or-equal to. -/
def insertSorted (le : α → α → Bool) (a : α) : List α → List α
  | [] => [a]
  | b :: bs => if le a b then a :: b :: bs else b :: insertSorted le a bs

/-- Stable sort by a boolean total preorder (model of the stable
Array.prototype.sort). -/
def stableSort (le : α → α → Bool) : List α → List α
  | [] => []
  | x :: xs => insertSorted le x (stableSort le xs)

/-- Order induced by the classifier comparator
(a, b) => b.score - a.score || a.label.localeCompare(b.label):
higher scores first, ties in lexicographic label order. -/
def scoredLe (x y : String × Nat) : Bool :=
  if x.2 = y.2 then ! strLt y.1 x.1 else y.2 < x.2

/-- Model of classifyText: keyword-containment scoring (2 when the
lowercased label occurs in the lowercased stringified input, else 1),
stable sort by descending score with lexicographic tie-break, and the
head label with confidence 0.92 on a substring hit, else 0.67; an empty
scored list yields the label "general" with confidence 0.67. -/
def classifyText (input : JVal) (labels : List String) : ClassifyResult :=
  let text := jsToLower (jsStringOfInput input)
  let scored := labels.map (fun label =>
    (label, if strIncludes text (jsToLower label) then (2 : Nat) else 1))
  let sorted := stableSort scoredLe scored
  match sorted.head? with
  | some top => ⟨top.1, if top.2 = 2 then mkRat 92 100 else mkRat 67 100⟩
  | none => ⟨"general", mkRat 67 100⟩

/-- Model of summarizeText: a Summary prefix plus the first 180
characters of the stringified input.  A string input is used as is;
an undefined input makes JSON.stringify return undefined and the
source throw on .slice. -/
def summarizeText (input : JVal) : Except String String :=
  match input with
  | .str s => .ok ("Summary: " ++ String.mk (s.toList.take 180))
  | v =>
      match jsonStringify v with
      | some s => .ok ("Summary: " ++ String.mk (s.toList.take 180))
      | none => .error "TypeError: Cannot read properties of undefined (reading slice)"

/-- Own-property member read v[k] on JSON-shaped values (objects by key,
arrays by index or length, strings by character index or length). -/
def jsMemberGet : JVal → String → JVal
  | .obj fs, k => (fs.get k).getD .undefVal
  | .arr xs, k =>
      if isAllDigits k.toList then (xs.get (natOfDigits k.toList)).getD .undefVal
      else if k = "length" then .num (mkRat (xs.length : Int) 1)
      else .undefVal
  | .str s, k =>
      if isAllDigits k.toList then
        match s.toList.get? (natOfDigits k.toList) with
        | some c => .str (String.mk [c])
        | none => .undefVal
      else if k = "length" then .num (mkRat (s.toList.length : Int) 1)
      else .undefVal
  | _, _ => .undefVal

/-- Left-to-right effectful map over a list, stopping at the first
error: the order a JS loop or Array.prototype.map evaluates a throwing
body in. -/
def exceptMapList {α β : Type} (f : α → Except String β) : List α → Except String (List β)
  | [] => .ok []
  | x :: xs => do
      let y ← f x
      let ys ← exceptMapList f xs
      .ok (y :: ys)

/-- Object.keys(v): the own enumerable keys (entry keys of an object,
index strings of an array or string, nothing for number or boolean
primitives, which box to key-less objects); Object.keys(null) and
Object.keys(undefined) throw a TypeError. -/
def jsObjectKeys : JVal → Except String (List String)
  | .null => .error "TypeError: Cannot convert undefined or null to object"
  | .undefVal => .error "TypeError: Cannot convert undefined or null to object"
  | .obj fs => .ok (fs.toList.map (·.1))
  | .arr xs => .ok ((List.range xs.toList.length).map natToString)
  | .str s => .ok ((List.range s.toList.length).map natToString)
  | _ => .ok []

/-- CSV cell quoting of the sources: internal double quotes doubled. -/
def csvEscape (s : String) : String :=
  String.join (s.toList.map (fun c => if c = '"' then "\"\"" else String.mk [c]))

/-- Raw text of one CSV cell before quoting, for a row the property read
row[h] does not throw on: string values stay, nullish values serialize
the empty string, anything else serializes compactly. -/
def csvCellRaw (row : JVal) (h : String) : String :=
  match jsMemberGet row h with
  | .str s => s
  | .undefVal => "\"\""
  | .null => "\"\""
  | v => (jsonStringify v).getD ""

/-- One quoted CSV cell: the property read row[h] throws a TypeError on
a null or undefined row, every other row yields the quoted raw text. -/
def csvCell (row : JVal) (h : String) : Except String String :=
  match row with
  | .null => .error ("TypeError: Cannot read properties of null (reading " ++ h ++ ")")
  | .undefVal => .error ("TypeError: Cannot read properties of undefined (reading " ++ h ++ ")")
  | _ => .ok ("\"" ++ csvEscape (csvCellRaw row h) ++ "\"")

/-- Model of toCsv: non-arrays pretty-print as JSON (undefined input
propagates the undefined result of JSON.stringify), the empty array
yields the empty string, and otherwise the first element supplies the
header keys through Object.keys — throwing on a null or undefined first
element — with every following row quoted cell by cell (a cell read on a
null or undefined row also throws, when there is a header to read). -/
def toCsv (data : JVal) : Except String JVal :=
  match data with
  | .arr .nil => .ok (.str "")
  | .arr xs => do
      let rows := xs.toList
      let headers ← jsObjectKeys (rows.headD .undefVal)
      let lines ← exceptMapList (fun row =>
        (exceptMapList (csvCell row) headers).map (String.intercalate ",")) rows
      .ok (.str (String.intercalate "\n" (String.intercalate "," headers :: lines)))
  | v =>
      .ok (match jsonStringifyPretty 0 v with
        | some s => .str s
        | none => .undefVal)

/-- Strict-equality test of a value against a string literal. -/
def isStrVal (v : JVal) (s : String) : Bool :=
  match v with
  | .str t => t = s
  | _ => false

/-- Model of resolveDbMapping: non-object mappings give no entries;
string values starting with the dollar character resolve against the
context, all other values pass through. -/
def resolveDbMapping (mapping : JVal) (ctx : Ctx) : Ctx :=
  match mapping with
  | .obj fs =>
      fs.toList.map (fun p =>
        match p.2 with
        | .str s =>
            if s.toList.head? = some '$' then
              (p.1, resolveJsonPath (.obj (JObj.ofList ctx)) (some s))
            else (p.1, p.2)
        | v => (p.1, v))
  | _ => []

/-
Workflow document data model (shared/schema/workflow.ts types).
-/

/-- Port of a node (id, label, schema tag). -/
structure NodePort where
  id : String
  label : String
  schemaTag : String
deriving DecidableEq, Repr

/-- Node of a workflow graph. -/
structure WorkflowNode where
  id : String
  type : String
  name : String
  posX : ℚ
  posY : ℚ
  inputs : List NodePort
  outputs : List NodePort
  config : Ctx
  uiIcon : String
  uiColor : String
deriving Repr

/-- Edge of a workflow graph. -/
structure WorkflowEdge where
  id : String
  sourceNodeId : String
  sourcePortId : String
  targetNodeId : String
  targetPortId : String
  label : Option String
  condition : Option String
deriving DecidableEq, Repr

/-- Workflow body. -/
structure Workflow where
  id : String
  name : String
  description : String
  tags : List String
  entryNodeId : String
  vars : Ctx
  nodes : List WorkflowNode
  edges : List WorkflowEdge
deriving Repr

/-- Versioned workflow document. -/
structure WorkflowDoc where
  schemaVersion : String
  workflow : Workflow
deriving Repr

/-
Simulated node executor: runNode (simulate.ts lines 159-215).
-/

/-- Model of runNode.  Each branch mirrors the corresponding type test
of the source in order; exceptions of the source (TypeErrors from
non-string truthy paths and from slicing an undefined serialization)
are the error case. -/
def runNode (node : WorkflowNode) (ctx : Ctx) : Except String Ctx := do
  let mut out := ctx
  let config := node.config
  if node.type = "ai.summarize" then
    let input ← resolveJsonPathDyn (.obj (JObj.ofList out)) (configOr config "input_path" (.str "$.input"))
    let summary ← summarizeText input
    out := jsSet out (jsPropKey (configOr config "output_key" (.str "summary"))) (.str summary)
  if node.type = "ai.classify" then
    let input ← resolveJsonPathDyn (.obj (JObj.ofList out)) (configOr config "input_path" (.str "$.input"))
    let labels := classifyLabels config
    let result := classifyText input labels
    out := jsSet out (jsPropKey (configOr config "output_key" (.str "label"))) (.str result.label)
    out := jsSet out (jsPropKey (configOr config "confidence_key" (.str "confidence"))) (.num result.confidence)
  if node.type = "ai.extract_fields" then
    let fields :=
      match jsGet config "fields" with
      | some (.arr xs) => xs.toList
      | _ => []
    let extracted := fields.foldl (fun acc f =>
      let key := jsPropKey (match f with
        | .obj ff => configOr ff.toList "key" (.str "field")
        | _ => .str "field")
      let ftype : JVal := match f with
        | .obj ff => (ff.get "type").getD .undefVal
        | _ => .undefVal
      let value : JVal :=
        if isStrVal ftype "number" then .num 0
        else if isStrVal ftype "boolean" then .bool false
        else if isStrVal ftype "array" then .arr .nil
        else .str ""
      jsSet acc key value) ([] : Ctx)
    out := jsSet out (jsPropKey (configOr config "output_key" (.str "extracted"))) (.obj (JObj.ofList extracted))
  if node.type = "ai.generate_report" then
    let input ← resolveJsonPathDyn (.obj (JObj.ofList out)) (configOr config "input_path" (.str "$.input"))
    match jsonStringify input with
    | some s =>
        out := jsSet out (jsPropKey (configOr config "output_key" (.str "report")))
          (.str ("# Generated SOP\n\n- Source: " ++ String.mk (s.toList.take 100) ++ "\n- Step 1\n- Step 2"))
    | none => throw "TypeError: Cannot read properties of undefined (reading slice)"
  if node.type = "logic.delay" then
    out := jsSet out "delay_applied" (configOr config "seconds" (.num 0))
  if node.type = "output.db_save" then
    out := jsSet out "db_save" (.obj (JObj.ofList
      [("would_save", .bool true),
       ("table", configOr config "table" (.str "va_items")),
       ("mode", configOr config "mode" (.str "insert")),
       ("payload", .obj (JObj.ofList (resolveDbMapping ((jsGet config "mapping").getD .undefVal) out)))]))
  if node.type = "output.export" then
    let data ← resolveJsonPathDyn (.obj (JObj.ofList out)) (configOr config "input_path" (.str "$.input"))
    let format := configOr config "format" (.str "json")
    let content : JVal ←
      if isStrVal format "csv" then toCsv data
      else .ok (match jsonStringifyPretty 0 data with
        | some s => .str s
        | none => .undefVal)
    out := jsSet out "export" (.obj (JObj.ofList
      [("format", format),
       ("filename", configOr config "filename" (.str ("export." ++ jsPropKey format))),
       ("data", data),
       ("content", content)]))
  return out

/-- Model of selectConditionOutput (simulate.ts lines 243-251): the
non-default output port on a true expression, the default output on a
false one, with fallbacks to the first declared output. -/
def selectConditionOutput (node : WorkflowNode) (ctx : Ctx) : Option String :=
  let config := node.config
  let expression := jsPropKey (configOr config "expression" (.str ""))
  let defaultOutput : Option String :=
    match jsGet config "default_output" with
    | some (.str s) => some s
    | _ => none
  let outputIds := node.outputs.map (·.id)
  let nonDefault :=
    match outputIds.find? (fun i => decide (some i ≠ defaultOutput)) with
    | some i => some i
    | none => outputIds.head?
  let isTrue := evaluateConditionExpression ctx expression
  if isTrue then nonDefault
  else
    match defaultOutput with
    | some d => some d
    | none => nonDefault



/-
Graph Scheduler: topo (simulate.ts lines 217-241; the run-workflow copy
lines 374-394 is identical), a Kahn BFS over JS Maps.
-/

/-- JS Map.prototype.set on an entry list: an existing key keeps its
first-insertion position and gets the new value, a new key is appended
(JS Map iteration order is first-insertion order). -/
def mapSet (m : List (String × α)) (k : String) (v : α) : List (String × α) :=
  match m with
  | [] => [(k, v)]
  | (k0, v0) :: rest =>
      if k0 = k then (k0, v) :: rest else (k0, v0) :: mapSet rest k v

/-- JS Map.prototype.get. -/
def mapGet (m : List (String × α)) (k : String) : Option α :=
  (m.find? (fun p => p.1 = k)).map (·.2)

/-- Fueled Kahn BFS loop: pop the queue front, append the node when the
id is a known node, decrement successors and enqueue the ones hitting
in-degree zero.  Every iteration pops one queue element and each id is
enqueued at most once (an in-degree passes zero at most once), so fuel
nodes + edges + 1 always completes the loop. -/
def kahnLoop (fuel : Nat) (indeg : List (String × Int))
    (adj : List (String × List String)) (nodesById : List (String × WorkflowNode))
    (q : List String) (ordered : List WorkflowNode) : List WorkflowNode :=
  match fuel, q with
  | 0, _ => ordered
  | _ + 1, [] => ordered
  | fuel + 1, id :: rest =>
      let ordered1 :=
        match mapGet nodesById id with
        | some n => ordered ++ [n]
        | none => ordered
      let upd := ((mapGet adj id).getD []).foldl
        (fun (acc : List (String × Int) × List String) nxt =>
          let ind1 := mapSet acc.1 nxt ((mapGet acc.1 nxt).getD 0 - 1)
          (ind1, if (mapGet ind1 nxt).getD 0 = 0 then acc.2 ++ [nxt] else acc.2))
        (indeg, rest)
      kahnLoop fuel upd.1 adj nodesById upd.2 ordered1

/-- Model of topo: in-degree map seeded from the nodes (last duplicate
node wins the by-id map, as with new Map), incremented per edge target;
adjacency collected per edge source; queue seeded with all zero
in-degree ids in map order. -/
def topo (doc : WorkflowDoc) : List WorkflowNode :=
  let nodesById := doc.workflow.nodes.foldl (fun m n => mapSet m n.id n) []
  let indeg0 : List (String × Int) := doc.workflow.nodes.foldl (fun m n => mapSet m n.id 0) []
  let scan := doc.workflow.edges.foldl
    (fun (acc : List (String × Int) × List (String × List String)) e =>
      (mapSet acc.1 e.targetNodeId ((mapGet acc.1 e.targetNodeId).getD 0 + 1),
       mapSet acc.2 e.sourceNodeId ((mapGet acc.2 e.sourceNodeId).getD [] ++ [e.targetNodeId])))
    (indeg0, [])
  let q0 := (scan.1.filter (fun p => p.2 = 0)).map (·.1)
  kahnLoop (doc.workflow.nodes.length + doc.workflow.edges.length + 1)
    scan.1 scan.2 nodesById q0 []

/-
Run Orchestrator (simulate.ts lines 253-334; the run-workflow loop lines
503-677 has the same control flow with live executors).
-/

/-- Step record of one executed node.  Wall-clock fields of the source
(started_at, finished_at, duration_ms) are host-clock values outside the
model; every execution-relevant field is kept. -/
structure StepResult where
  nodeId : String
  nodeName : String
  nodeType : String
  status : String
  selectedOutputPort : Option String
  nextNodeIds : List String
  input : Ctx
  output : Ctx
  errMsg : Option String
deriving Repr

/-- Final result of a run: status, step trace and terminal context. -/
structure RunResult where
  status : String
  steps : List StepResult
  output : Ctx
deriving Repr

/-- Nullish coalescing on an optional property read. -/
def nullishOr (v : Option JVal) (next : JVal) : JVal :=
  match v with
  | none => next
  | some .undefVal => next
  | some .null => next
  | some x => x

/-- Outgoing-edge map keyed by source node id, in edge order. -/
def outgoingMap (edges : List WorkflowEdge) : List (String × List WorkflowEdge) :=
  edges.foldl (fun m e => mapSet m e.sourceNodeId ((mapGet m e.sourceNodeId).getD [] ++ [e])) []

/-- Shared engine loop over the topologically ordered nodes, abstracted
over the node executor (runNode for the simulated engine; the live
engine of the run-workflow function has the same control flow with
effectful executors, which the executor argument models).  Inactive
nodes are skipped without a step; a successful step activates the
followed targets; the first executor error appends a failed step and
terminates the run with the pre-node context. -/
def execLoop (exec : WorkflowNode → Ctx → Except String Ctx)
    (outgoing : String → List WorkflowEdge) :
    List WorkflowNode → List String → Ctx → List StepResult → RunResult
  | [], _, ctx, steps => ⟨"success", steps, ctx⟩
  | node :: rest, active, ctx, steps =>
      if node.id ∈ active then
        match exec node ctx with
        | .ok out =>
            let selectedPort :=
              if node.type = "logic.condition" then selectConditionOutput node out else none
            let outs : List WorkflowEdge := outgoing node.id
            let followed : List WorkflowEdge :=
              match selectedPort with
              | some s =>
                  if node.type = "logic.condition" ∧ s ≠ "" then
                    outs.filter (fun e => e.sourcePortId = s)
                  else outs
              | none => outs
            let nextIds := followed.map (·.targetNodeId)
            execLoop exec outgoing rest (active ++ nextIds) out
              (steps ++ [⟨node.id, node.name, node.type, "success", selectedPort, nextIds,
                deepCloneCtx ctx, deepCloneCtx out, none⟩])
        | .error e =>
            ⟨"failed",
             steps ++ [⟨node.id, node.name, node.type, "failed", none, [],
               deepCloneCtx ctx, [("error", .str e)], some e⟩],
             ctx⟩
      else execLoop exec outgoing rest active ctx steps

/-- Model of simulateWorkflow: seed the initial input from the override
or the trigger config (sample_input, then sample_payload, then payload),
reject non-DAG graphs before executing anything, then run the loop with
the simulated executor starting from the entry node. -/
def simulateWorkflow (doc : WorkflowDoc) (inputOverride : Option Ctx) : RunResult :=
  let trigger := doc.workflow.nodes.find? (fun n => n.id = doc.workflow.entryNodeId)
  let triggerCfg : Ctx := (trigger.map (·.config)).getD []
  let initialInput : JVal :=
    match inputOverride with
    | some c => .obj (JObj.ofList c)
    | none =>
        nullishOr (jsGet triggerCfg "sample_input")
          (nullishOr (jsGet triggerCfg "sample_payload")
            (nullishOr (jsGet triggerCfg "payload") (.obj .nil)))
  let ordered := topo doc
  if ordered.length ≠ doc.workflow.nodes.length then
    ⟨"failed", [], [("error", .str "Cycle detected or graph is not a DAG.")]⟩
  else
    execLoop runNode (fun i => (mapGet (outgoingMap doc.workflow.edges) i).getD [])
      ordered [doc.workflow.entryNodeId] [("input", deepCloneV initialInput)] []

/-
Document Validator: workflowDocSchema (shared/schema/workflow.ts) and
the validateWorkflowDoc wrapper (apps/web/src/lib/workflow.ts).
-/

/-- Closed enumeration of node types accepted by the schema. -/
def allowedNodeTypes : List String :=
  ["trigger.manual", "trigger.webhook", "trigger.schedule", "trigger.file_upload",
   "ai.summarize", "ai.classify", "ai.extract_fields", "ai.generate_report",
   "logic.condition", "logic.delay", "output.db_save", "output.export"]

/-- Trigger subset of the node types. -/
def triggerNodeTypes : List String :=
  ["trigger.manual", "trigger.webhook", "trigger.schedule", "trigger.file_upload"]

/-- Character class of the workflow id pattern after the wf_ prefix. -/
def isIdBodyChar (c : Char) : Bool :=
  ('a' ≤ c ∧ c ≤ 'z') ∨ ('A' ≤ c ∧ c ≤ 'Z') ∨ ('0' ≤ c ∧ c ≤ '9') ∨ c = '_' ∨ c = '-'

/-- Model of the regex /^wf_[a-zA-Z0-9_-]+$/. -/
def matchesWfId (s : String) : Bool :=
  match s.toList with
  | 'w' :: 'f' :: '_' :: rest => rest ≠ [] ∧ rest.all isIdBodyChar
  | _ => false

/-- Structural shape checks of the zod schemas (nonempty strings where
z.string().min(1) is used, the schema_version literal, the workflow id
pattern, the node type enumeration, at least one output port, at least
one node).  These run before the cross-referential superRefine pass. -/
def structuralOk (doc : WorkflowDoc) : Bool :=
  let portOk (p : NodePort) : Bool := p.id ≠ "" ∧ p.label ≠ "" ∧ p.schemaTag ≠ ""
  let nodeOk (n : WorkflowNode) : Bool :=
    n.id ≠ "" ∧ allowedNodeTypes.contains n.type ∧ n.name ≠ "" ∧
      n.inputs.all portOk ∧ n.outputs.all portOk ∧ n.outputs ≠ [] ∧
      n.uiIcon ≠ "" ∧ n.uiColor ≠ ""
  let edgeOk (e : WorkflowEdge) : Bool :=
    e.id ≠ "" ∧ e.sourceNodeId ≠ "" ∧ e.sourcePortId ≠ "" ∧
      e.targetNodeId ≠ "" ∧ e.targetPortId ≠ ""
  doc.schemaVersion = "1.0" ∧
    matchesWfId doc.workflow.id ∧
    doc.workflow.name ≠ "" ∧
    doc.workflow.description ≠ "" ∧
    doc.workflow.entryNodeId ≠ "" ∧
    ¬ doc.workflow.nodes.isEmpty ∧
    doc.workflow.nodes.all nodeOk ∧
    doc.workflow.edges.all edgeOk

/-- Cross-referential issues collected by the superRefine pass of
workflowDocSchema, formatted as the path-prefixed strings that
validateWorkflowDoc produces.  The pass order of the source is kept:
trigger-count and entry check, one pass over nodes, one pass over
edges.  There is no DAG or cycle check in this pass. -/
def collectIssues (doc : WorkflowDoc) : List String :=
  let nodes := doc.workflow.nodes
  let edges := doc.workflow.edges
  let triggerNodes := nodes.filter (fun n => triggerNodeTypes.contains n.type)
  let triggerIssues :=
    (if triggerNodes.length ≠ 1 then
      ["workflow.nodes: Exactly one trigger node is required."] else []) ++
    (match triggerNodes.head? with
     | some t =>
         if doc.workflow.entryNodeId ≠ t.id then
           ["workflow.entry_node_id: entry_node_id must point to the trigger node."]
         else []
     | none => [])
  let nodeIssues := (nodes.foldl
    (fun (acc : List String × List String) n =>
      let dup :=
        if acc.1.contains n.id then
          ["workflow.nodes: Duplicate node id: " ++ n.id] else []
      let isTrigger := triggerNodeTypes.contains n.type
      let trig :=
        if isTrigger ∧ n.inputs.length ≠ 0 then
          ["workflow.nodes: Trigger node " ++ n.id ++ " must have no inputs."] else []
      let nontrig :=
        if ¬ isTrigger ∧ n.inputs.length < 1 then
          ["workflow.nodes: Non-trigger node " ++ n.id ++ " must have at least one input."] else []
      let cond :=
        if n.type = "logic.condition" then
          (if n.outputs.length < 2 then
            ["workflow.nodes: Condition node " ++ n.id ++ " must have at least two outputs."] else []) ++
          (let defaultOutput := jsGet n.config "default_output"
           let outputIds := n.outputs.map (·.id)
           match defaultOutput with
           | some (.str s) =>
               if outputIds.contains s then []
               else ["workflow.nodes: Condition node " ++ n.id ++
                 " default_output must match an output port id."]
           | _ => ["workflow.nodes: Condition node " ++ n.id ++
               " default_output must match an output port id."])
        else []
      (acc.1 ++ [n.id], acc.2 ++ dup ++ trig ++ nontrig ++ cond))
    ([], [])).2
  let edgeIssues := (edges.foldl
    (fun (acc : List String × List String) e =>
      let dup :=
        if acc.1.contains e.id then
          ["workflow.edges: Duplicate edge id: " ++ e.id] else []
      let sourceNode := nodes.find? (fun n => n.id = e.sourceNodeId)
      let targetNode := nodes.find? (fun n => n.id = e.targetNodeId)
      let src :=
        match sourceNode with
        | none => ["workflow.edges: Edge " ++ e.id ++ " source node not found."]
        | some n =>
            if n.outputs.any (fun p => p.id = e.sourcePortId) then []
            else ["workflow.edges: Edge " ++ e.id ++ " source port must reference an output port."]
      let tgt :=
        match targetNode with
        | none => ["workflow.edges: Edge " ++ e.id ++ " target node not found."]
        | some n =>
            if n.inputs.any (fun p => p.id = e.targetPortId) then []
            else ["workflow.edges: Edge " ++ e.id ++ " target port must reference an input port."]
      (acc.1 ++ [e.id], acc.2 ++ dup ++ src ++ tgt))
    ([], [])).2
  triggerIssues ++ nodeIssues ++ edgeIssues

/-- Model of validateWorkflowDoc restricted to its ok flag: safeParse
succeeds exactly when the structural checks pass and the superRefine
pass adds no issue. -/
def validateWorkflowDocOk (doc : WorkflowDoc) : Bool :=
  structuralOk doc ∧ (collectIssues doc).isEmpty

/-
Semantic edit surface: connectNodes and the validation gate of
applySemanticCommand (apps/web/src/lib/semanticEdit.ts).
-/

/-- Rational successor built without rational addition (equal to q + 1). -/
def ratAddOne (q : ℚ) : ℚ := mkRat (q.num + q.den) q.den

/-- Math.max over a list of finite numbers, as spread into Math.max. -/
def maxQ : List ℚ → Option ℚ
  | [] => none
  | x :: xs =>
      some (xs.foldl (fun a b => if a < b then b else a) x)

/-- Model of nextEdgeId: numeric values of the edge ids with one leading
letter e removed (keeping only finite parses), then e followed by the
maximum plus one (0 when no id parses). -/
def nextEdgeId (doc : WorkflowDoc) : String :=
  let stripE (s : String) : String :=
    match s.toList with
    | 'e' :: rest => String.mk rest
    | _ => s
  let nums := doc.workflow.edges.filterMap (fun e =>
    match jsStringToNumber (stripE e.id) with
    | .val q => some q
    | _ => none)
  let m := (maxQ nums).getD 0
  "e" ++ numToString (ratAddOne m)

/-- Case-insensitive reference match on a node id or name used by the
semantic edit commands. -/
def nodeRefMatches (n : WorkflowNode) (ref : String) : Bool :=
  jsToLower n.id = jsToLower ref ∨ jsToLower n.name = jsToLower ref

/-- Model of connectNodes: find both endpoints by id or name (case
insensitive), require a first output port and a first input port, and
append a new edge between them. -/
def connectNodes (doc : WorkflowDoc) (sourceRef targetRef : String) : Option WorkflowDoc :=
  match doc.workflow.nodes.find? (fun n => nodeRefMatches n sourceRef),
        doc.workflow.nodes.find? (fun n => nodeRefMatches n targetRef) with
  | some source, some target =>
      match source.outputs.head?, target.inputs.head? with
      | some sPort, some tPort =>
          some { doc with workflow := { doc.workflow with
            edges := doc.workflow.edges ++
              [⟨nextEdgeId doc, source.id, sPort.id, target.id, tPort.id, none, none⟩] } }
      | _, _ => none
  | _, _ => none

/-- Outcome of a semantic edit command (ok flag and message). -/
structure EditResult where
  ok : Bool
  message : String
deriving DecidableEq, Repr

/-- Model of the connect path of applySemanticCommand: a connect command
builds the candidate with connectNodes and accepts it only when
validateWorkflowDoc passes, otherwise it reports
"Edit rejected by workflow validator.". -/
def applyConnectCommand (doc : WorkflowDoc) (sourceRef targetRef : String) : EditResult :=
  match connectNodes doc sourceRef targetRef with
  | none => ⟨false, "Could not connect nodes."⟩
  | some candidate =>
      if validateWorkflowDocOk candidate then
        ⟨true, "Connected " ++ sourceRef ++ " to " ++ targetRef ++ "."⟩
      else ⟨false, "Edit rejected by workflow validator."⟩

/-
JSON.parse model, used by parseJsonObjectFromText of the run-workflow
function.
-/

/-- JSON insignificant whitespace. -/
def skipJsonWs (s : List Char) : List Char :=
  s.dropWhile (fun c => c = ' ' ∨ c = '\t' ∨ c = '\n' ∨ c = '\r')

/-- JSON string-literal body scanner after the opening quote: plain
characters above the control range, the simple escapes, and \uXXXX. -/
def parseJsonStringBody : List Char → Option (List Char × List Char)
  | [] => none
  | '"' :: rest => some ([], rest)
  | '\\' :: e :: rest =>
      if e = '"' ∨ e = '\\' ∨ e = '/' then
        (parseJsonStringBody rest).map (fun p => (e :: p.1, p.2))
      else if e = 'b' then (parseJsonStringBody rest).map (fun p => (Char.ofNat 8 :: p.1, p.2))
      else if e = 'f' then (parseJsonStringBody rest).map (fun p => (Char.ofNat 12 :: p.1, p.2))
      else if e = 'n' then (parseJsonStringBody rest).map (fun p => ('\n' :: p.1, p.2))
      else if e = 'r' then (parseJsonStringBody rest).map (fun p => ('\r' :: p.1, p.2))
      else if e = 't' then (parseJsonStringBody rest).map (fun p => ('\t' :: p.1, p.2))
      else if e = 'u' then
        match rest with
        | a :: b :: c :: d :: rest1 =>
            match hexDigitVal a, hexDigitVal b, hexDigitVal c, hexDigitVal d with
            | some ha, some hb, some hc, some hd =>
                (parseJsonStringBody rest1).map (fun p =>
                  (Char.ofNat (((ha * 16 + hb) * 16 + hc) * 16 + hd) :: p.1, p.2))
            | _, _, _, _ => none
        | _ => none
      else none
  | c :: rest =>
      if c.toNat < 32 then none
      else (parseJsonStringBody rest).map (fun p => (c :: p.1, p.2))

/-- JSON number literal: optional minus, an integer part without leading
zeros, optional fraction and exponent. -/
def parseJsonNumber (s : List Char) : Option (JVal × List Char) :=
  let signSplit : Int × List Char :=
    match s with
    | '-' :: rest => (-1, rest)
    | _ => (1, s)
  let sign := signSplit.1
  let s1 := signSplit.2
  let intSplit : Option (List Char × List Char) :=
    match s1 with
    | '0' :: rest => some (['0'], rest)
    | c :: _ =>
        if isDigitChar c then
          some (s1.takeWhile isDigitChar, s1.dropWhile isDigitChar)
        else none
    | [] => none
  match intSplit with
  | none => none
  | some (intPart, s2) =>
      let fracSplit : Option (List Char × List Char) :=
        match s2 with
        | '.' :: rest =>
            let ds := rest.takeWhile isDigitChar
            if ds = [] then none else some (ds, rest.drop ds.length)
        | _ => some ([], s2)
      match fracSplit with
      | none => none
      | some (fracPart, s3) =>
          let expSplit : Option (Int × List Char) :=
            match s3 with
            | e :: rest =>
                if e = 'e' ∨ e = 'E' then
                  let esignSplit : Int × List Char :=
                    match rest with
                    | '+' :: r => (1, r)
                    | '-' :: r => (-1, r)
                    | _ => (1, rest)
                  let ds := esignSplit.2.takeWhile isDigitChar
                  if ds = [] then none
                  else some (esignSplit.1 * (natOfDigits ds : Int), esignSplit.2.drop ds.length)
                else some (0, s3)
            | [] => some (0, s3)
          match expSplit with
          | none => none
          | some (ex, s4) =>
              let mantissa : Int := sign * (natOfDigits (intPart ++ fracPart) : Int)
              let fracLen := fracPart.length
              let q : ℚ :=
                if 0 ≤ ex - (fracLen : Int) then
                  mkRat (mantissa * (10 : Int) ^ (ex - (fracLen : Int)).toNat) 1
                else
                  mkRat mantissa (10 ^ ((fracLen : Int) - ex).toNat)
              some (.num q, s4)

mutual

/-- Fueled JSON value parser; fuel 2·length + 4 always suffices because
every recursive call consumes at least one character. -/
def parseJsonValue : Nat → List Char → Option (JVal × List Char)
  | 0, _ => none
  | fuel + 1, s =>
      match skipJsonWs s with
      | 'n' :: 'u' :: 'l' :: 'l' :: rest => some (.null, rest)
      | 't' :: 'r' :: 'u' :: 'e' :: rest => some (.bool true, rest)
      | 'f' :: 'a' :: 'l' :: 's' :: 'e' :: rest => some (.bool false, rest)
      | '"' :: rest =>
          (parseJsonStringBody rest).map (fun p => (.str (String.mk p.1), p.2))
      | '[' :: rest =>
          (match skipJsonWs rest with
           | ']' :: rest1 => some (.arr .nil, rest1)
           | s1 => (parseJsonArrItems fuel s1).map (fun p => (.arr p.1, p.2)))
      | '{' :: rest =>
          (match skipJsonWs rest with
           | '}' :: rest1 => some (.obj .nil, rest1)
           | s1 => (parseJsonObjItems fuel s1).map (fun p => (.obj p.1, p.2)))
      | s1 => parseJsonNumber s1

/-- Comma-separated array elements up to the closing bracket. -/
def parseJsonArrItems : Nat → List Char → Option (JArr × List Char)
  | 0, _ => none
  | fuel + 1, s =>
      match parseJsonValue fuel s with
      | none => none
      | some (v, rest) =>
          match skipJsonWs rest with
          | ',' :: rest1 =>
              (parseJsonArrItems fuel rest1).map (fun p => (.cons v p.1, p.2))
          | ']' :: rest1 => some (.cons v .nil, rest1)
          | _ => none

/-- Comma-separated object entries up to the closing brace. -/
def parseJsonObjItems : Nat → List Char → Option (JObj × List Char)
  | 0, _ => none
  | fuel + 1, s =>
      match skipJsonWs s with
      | '"' :: rest =>
          (match parseJsonStringBody rest with
           | none => none
           | some (key, rest1) =>
               match skipJsonWs rest1 with
               | ':' :: rest2 =>
                   (match parseJsonValue fuel rest2 with
                    | none => none
                    | some (v, rest3) =>
                        match skipJsonWs rest3 with
                        | ',' :: rest4 =>
                            (parseJsonObjItems fuel rest4).map
                              (fun p => (.cons (String.mk key) v p.1, p.2))
                        | '}' :: rest4 => some (.cons (String.mk key) v .nil, rest4)
                        | _ => none)
               | _ => none)
      | _ => none

end

/-- Model of JSON.parse: one JSON text with optional surrounding
whitespace; anything else is a parse failure (the thrown SyntaxError of
JS maps to none). -/
def jsonParse (s : String) : Option JVal :=
  let cs := s.toList
  match parseJsonValue (2 * cs.length + 4) cs with
  | some (v, rest) => if skipJsonWs rest = [] then some v else none
  | none => none

/-
parseJsonObjectFromText and classifyTextLive (run-workflow function
lines 170-266).
-/

/-- Backtick character (written by code point). -/
def backtickChar : Char := Char.ofNat 96

/-- Fence test: three consecutive backticks at the head. -/
def isFenceAt : List Char → Bool
  | a :: b :: c :: _ => a = backtickChar ∧ b = backtickChar ∧ c = backtickChar
  | _ => false

/-- Characters after the first fence (three consecutive backticks). -/
def fenceStartSplit : List Char → Option (List Char)
  | [] => none
  | a :: rest =>
      if isFenceAt (a :: rest) then some (rest.drop 2) else fenceStartSplit rest

/-- Optional case-insensitive json tag directly after the opening fence. -/
def stripJsonTag (s : List Char) : List Char :=
  match s with
  | a :: b :: c :: d :: rest =>
      if a.toLower = 'j' ∧ b.toLower = 's' ∧ c.toLower = 'o' ∧ d.toLower = 'n' then rest
      else s
  | _ => s

/-- Body characters up to the next fence, or none when no fence closes. -/
def untilFence : List Char → Option (List Char)
  | [] => none
  | c :: rest =>
      if isFenceAt (c :: rest) then some [] else (untilFence rest).map (c :: ·)

/-- Captured group of the fenced-block regex of the source on the first
matching fence pair: the text between the fences with the optional json
tag and the surrounding whitespace stripped. -/
def findFence (s : List Char) : Option (List Char) :=
  (fenceStartSplit s).bind (fun after =>
    let afterTag := (stripJsonTag after).dropWhile isWsChar
    (untilFence afterTag).map (fun body => (body.reverse.dropWhile isWsChar).reverse))

/-- Model of parseJsonObjectFromText: try the trimmed content, then the
trimmed fenced-block body when one exists, then the first-to-last brace
slice; the first candidate that parses to a non-null non-array object
wins, otherwise none. -/
def parseJsonObjectFromText (content : String) : Option JObj :=
  let trimmed := trimChars content.toList
  let fenceCand : List (List Char) :=
    match findFence trimmed with
    | some body => [trimChars body]
    | none => []
  let braceCand : List (List Char) :=
    match trimmed.findIdx? (fun c => c = '{'),
          (trimmed.reverse.findIdx? (fun c => c = '}')) with
    | some first, some revLast =>
        let last := trimmed.length - 1 - revLast
        if first < last then [(trimmed.drop first).take (last + 1 - first)]
        else []
    | _, _ => []
  let candidates := trimmed :: (fenceCand ++ braceCand)
  candidates.findSome? (fun cand =>
    match jsonParse (String.mk cand) with
    | some (.obj fs) => some fs
    | _ => none)

/-- Clamp into [0, 1] via Math.max(0, Math.min(1, c)). -/
def clamp01 (q : ℚ) : ℚ :=
  let m := if (1 : ℚ) < q then 1 else q
  if m < 0 then 0 else m

/-- Label candidate extracted from the parsed model response: a trimmed
string label, the empty string otherwise. -/
def liveLabelOf (parsed : JObj) : String :=
  match parsed.get "label" with
  | some (.str s) => jsTrim s
  | _ => ""

/-- Confidence candidate of the parsed model response: the raw number
when the value is one, the Number() coercion otherwise (an absent key
coerces from undefined to NaN). -/
def liveConfidenceOf (parsed : JObj) : JsNum :=
  match parsed.get "confidence" with
  | some (.num q) => .val q
  | other => toNumber (other.getD .undefVal)

/-- Model of classifyTextLive as a function of the model response text:
an empty label list skips the AI call and returns the simulated
classifier directly; otherwise the response must yield an extractable
object whose label is a member of the list and whose confidence coerces
to a finite number (then clamped), and every other outcome falls back to
the simulated classifier. -/
def classifyTextLive (input : JVal) (labels : List String) (content : String) : ClassifyResult :=
  if labels.length = 0 then classifyText input labels
  else
    match parseJsonObjectFromText content with
    | none => classifyText input labels
    | some parsed =>
        if ¬ (labels.contains (liveLabelOf parsed)) then classifyText input labels
        else
          match liveConfidenceOf parsed with
          | .val q => ⟨liveLabelOf parsed, clamp01 q⟩
          | _ => classifyText input labels

/-
Live db_save and export branches of the run-workflow executor
(lines 549-608), parameterized by the external persistence collaborator.
-/

/-- Model of the live db_save table selection: a string table name with
nonempty trim is used trimmed, anything else defaults to va_items; a
name other than va_items is a thrown error before any insert. -/
def dbSaveLiveTable (config : Ctx) : Except String String :=
  let tableName :=
    match jsGet config "table" with
    | some (.str s) => if jsTrim s ≠ "" then jsTrim s else "va_items"
    | _ => "va_items"
  if tableName ≠ "va_items" then .error ("db_save unsupported table: " ++ tableName)
  else .ok tableName

/-- Payload of the live db_save mapping resolution (same resolution rule
as resolveDbMapping, on the config.mapping ?? {} value). -/
def dbSaveLivePayload (config : Ctx) (out : Ctx) : Ctx :=
  resolveDbMapping (configOr config "mapping" (.obj .nil)) out

/-- Model of the live db_save branch, parameterized by the insert
collaborator (table name and payload to generated id or failure).  The
table check throws before the insert is consulted; an insert failure is
a db_save failed error; success records the would_save summary with the
inserted id. -/
def dbSaveLiveBranch (insert : String → Ctx → Except String JVal)
    (config : Ctx) (out : Ctx) : Except String Ctx :=
  match dbSaveLiveTable config with
  | .error e => .error e
  | .ok tableName =>
      let payload := dbSaveLivePayload config out
      match insert tableName payload with
      | .error msg => .error ("db_save failed: " ++ msg)
      | .ok savedId =>
          .ok (jsSet out "db_save" (.obj (JObj.ofList
            [("would_save", .bool true),
             ("table", .str tableName),
             ("mode", configOr config "mode" (.str "insert")),
             ("payload", .obj (JObj.ofList payload)),
             ("inserted_id", savedId)])))

/-- Normalized export format of the live export branch: the lowercased
trimmed string format when one is configured (json otherwise), then csv
exactly for "csv" and json for everything else. -/
def exportLiveFormat (config : Ctx) : String :=
  let rawFormat :=
    match jsGet config "format" with
    | some (.str s) => jsTrim (jsToLower s)
    | _ => "json"
  if rawFormat = "csv" then "csv" else "json"

/-- Model of the live export branch, parameterized by the exports
collaborator (format and content to generated id or failure).  The resolved data serializes as CSV exactly for the
normalized csv format and as pretty JSON otherwise; a persistence
failure is an export failed error. -/
def exportLiveBranch (insertExport : String → JVal → Except String JVal)
    (config : Ctx) (out : Ctx) : Except String Ctx := do
  let data ← resolveJsonPathDyn (.obj (JObj.ofList out)) (configOr config "input_path" (.str "$.input"))
  let format := exportLiveFormat config
  let filename : JVal := configOr config "filename" (.str ("export." ++ format))
  let content : JVal ←
    if format = "csv" then toCsv data
    else .ok (match jsonStringifyPretty 0 data with
      | some s => .str s
      | none => .undefVal)
  match insertExport format content with
  | .error msg => .error ("export failed: " ++ msg)
  | .ok expId =>
      .ok (jsSet out "export" (.obj (JObj.ofList
        [("format", .str format),
         ("filename", filename),
         ("content", content),
         ("export_id", expId)])))

/-- Persisted run record of the run-workflow function (host ids aside):
status, tagged input payload, terminal context and step list. -/
structure RunRecord where
  status : String
  inputJson : JVal
  outputJson : Ctx
  steps : List StepResult
deriving Repr

/-- Failed-run record inserted by the catch branch before the error
response (run-workflow lines 659-670). -/
def failedRunInsert (initialInput : JVal) (ctx : Ctx) (steps : List StepResult) : RunRecord :=
  ⟨"failed",
   .obj (JObj.ofList [("source", .str "run-live"), ("payload", initialInput)]),
   ctx, steps⟩

/-
Concrete documents and nodes used to evaluate the claims, taken from
the repository smoke tests (semanticEdit.ts runSmokeTests) and from the
spec examples.
-/

/-- Port with the JSON schema tag used throughout the repository. -/
def mkPort (i l : String) : NodePort := ⟨i, l, "JSON"⟩

/-- Base document of the repository smoke tests: manual trigger n1,
summarize n2, export n3, edges n1-n2 and n2-n3. -/
def smokeBaseDoc : WorkflowDoc :=
  { schemaVersion := "1.0",
    workflow :=
      { id := "wf_test", name := "Smoke Test Workflow",
        description := "Validator and semantic edit smoke tests",
        tags := ["va"], entryNodeId := "n1", vars := [],
        nodes :=
          [{ id := "n1", type := "trigger.manual", name := "Start", posX := 80, posY := 120,
             inputs := [], outputs := [mkPort "out" "Out"],
             config := [("sample_input", .obj .nil)], uiIcon := "play", uiColor := "neutral" },
           { id := "n2", type := "ai.summarize", name := "Summarize", posX := 320, posY := 120,
             inputs := [mkPort "in" "In"], outputs := [mkPort "out" "Out"],
             config := [("input_path", .str "$.input"), ("output_key", .str "summary")],
             uiIcon := "sparkles", uiColor := "neutral" },
           { id := "n3", type := "output.export", name := "Export", posX := 560, posY := 120,
             inputs := [mkPort "in" "In"], outputs := [mkPort "out" "Out"],
             config := [("format", .str "json"), ("input_path", .str "$.summary"),
                        ("filename", .str "export.json")],
             uiIcon := "download", uiColor := "neutral" }],
        edges :=
          [⟨"e1", "n1", "out", "n2", "in", none, none⟩,
           ⟨"e2", "n2", "out", "n3", "in", none, none⟩] } }

/-- Smoke-test document with the cycle edge e3 from n3 back to n2 (the
document the repository test expects the validator to reject with a
DAG error). -/
def smokeCyclicDoc : WorkflowDoc :=
  { smokeBaseDoc with workflow := { smokeBaseDoc.workflow with
      edges := smokeBaseDoc.workflow.edges ++ [⟨"e3", "n3", "out", "n2", "in", none, none⟩] } }

/-- Condition node of the spec example: expression on the score field
with the false port as default output. -/
def condExampleNode : WorkflowNode :=
  { id := "n2", type := "logic.condition", name := "Condition", posX := 0, posY := 0,
    inputs := [mkPort "in" "In"],
    outputs := [⟨"true", "True", "JSON"⟩, ⟨"false", "False", "JSON"⟩],
    config := [("expression", .str "$.score > 0.8"), ("default_output", .str "false")],
    uiIcon := "git-branch", uiColor := "neutral" }

/-- Export node configured with the unsupported format string xml. -/
def exportXmlNode : WorkflowNode :=
  { id := "n3", type := "output.export", name := "Export", posX := 0, posY := 0,
    inputs := [mkPort "in" "In"], outputs := [mkPort "out" "Out"],
    config := [("format", .str "xml"), ("input_path", .str "$.input"),
               ("filename", .str "export.xml")],
    uiIcon := "download", uiColor := "neutral" }

/-- Classify node with an empty labels list. -/
def classifyEmptyLabelsNode : WorkflowNode :=
  { id := "n2", type := "ai.classify", name := "Classify", posX := 0, posY := 0,
    inputs := [mkPort "in" "In"], outputs := [mkPort "out" "Out"],
    config := [("input_path", .str "$.input"), ("labels", .arr .nil),
               ("output_key", .str "label"), ("confidence_key", .str "confidence")],
    uiIcon := "tags", uiColor := "neutral" }

/-- Keyword-containment score of one label (the scoring rule of
classifyText). -/
def scoreOf (input : JVal) (label : String) : Nat :=
  if strIncludes (jsToLower (jsStringOfInput input)) (jsToLower label) then 2 else 1

/-- Fail-fast trace shape: all steps before the last succeeded, the
status is failed exactly when a failed step exists, and a failed step
is always the final one. -/
def FailFastSpec (r : RunResult) : Prop :=
  (∀ s ∈ r.steps.dropLast, s.status = "success") ∧
  (r.status = "failed" ↔ ∃ s ∈ r.steps, s.status = "failed") ∧
  (∀ s ∈ r.steps, s.status = "failed" → r.steps.getLast? = some s) ∧
  (r.status = "success" ∨ r.status = "failed")

/-
Supporting lemmas.
-/

theorem dropLast_snoc (l : List α) (a : α) : (l ++ [a]).dropLast = l := by
  simp

theorem getLast?_snoc (l : List α) (a : α) : (l ++ [a]).getLast? = some a := by
  simp

/-- Fail-fast invariant of the shared engine loop: starting from an
all-success step prefix, the loop emits at most one failed step, always
last, and reports failed exactly when one exists. -/
theorem execLoop_failFast (exec : WorkflowNode → Ctx → Except String Ctx)
    (outgoing : String → List WorkflowEdge) :
    ∀ (nodes : List WorkflowNode) (active : List String) (ctx : Ctx) (steps : List StepResult),
      (∀ s ∈ steps, s.status = "success") →
      FailFastSpec (execLoop exec outgoing nodes active ctx steps) := by
  intro nodes
  induction nodes with
  | nil =>
      intro active ctx steps h
      refine ⟨?_, ?_, ?_, Or.inl rfl⟩
      · intro s hs
        exact h s (List.mem_of_mem_dropLast hs)
      · constructor
        · intro hst
          simp only [execLoop] at hst
          exact absurd hst (by decide)
        · rintro ⟨s, hs, hfail⟩
          have := h s hs
          rw [this] at hfail
          simp at hfail
      · intro s hs hfail
        have := h s hs
        rw [this] at hfail
        simp at hfail
  | cons node rest ih =>
      intro active ctx steps h
      by_cases hm : node.id ∈ active
      · rw [execLoop, if_pos hm]
        cases hx : exec node ctx with
        | ok out =>
            apply ih
            intro s hs
            rcases List.mem_append.mp hs with hs1 | hs2
            · exact h s hs1
            · rw [List.mem_singleton.mp hs2]
        | error e =>
            refine ⟨?_, ?_, ?_, Or.inr rfl⟩
            · intro s hs
              rw [dropLast_snoc] at hs
              exact h s hs
            · constructor
              · intro _
                exact ⟨_, List.mem_append_right _ (List.mem_singleton.mpr rfl), rfl⟩
              · intro _
                rfl
            · intro s hs hfail
              rcases List.mem_append.mp hs with hs1 | hs2
              · have := h s hs1
                rw [this] at hfail
                simp at hfail
              · rw [List.mem_singleton.mp hs2, getLast?_snoc]
      · rw [execLoop, if_neg hm]
        exact ih active ctx steps h

theorem charsLt_asymm : ∀ a b : List Char, charsLt a b = true → charsLt b a = false := by
  intro a
  induction a with
  | nil =>
      intro b h
      cases b with
      | nil => simp [charsLt] at h
      | cons x xs => simp [charsLt]
  | cons x xs ih =>
      intro b h
      cases b with
      | nil => simp [charsLt] at h
      | cons y ys =>
          simp only [charsLt] at h ⊢
          by_cases hxy : x.toNat < y.toNat
          · have hyx : ¬ y.toNat < x.toNat := by omega
            simp [hxy, hyx]
          · by_cases hyx : y.toNat < x.toNat
            · simp [hxy, hyx] at h
            · simp only [if_neg hxy, if_neg hyx] at h ⊢
              exact ih ys h

theorem charsLt_lin : ∀ c a b : List Char, charsLt c a = true →
    charsLt c b = true ∨ charsLt b a = true := by
  intro c
  induction c with
  | nil =>
      intro a b h
      cases a with
      | nil => simp [charsLt] at h
      | cons x xs =>
          cases b with
          | nil => right; simp [charsLt]
          | cons y ys => left; simp [charsLt]
  | cons cc cs ih =>
      intro a b h
      cases a with
      | nil => simp [charsLt] at h
      | cons aa as =>
          cases b with
          | nil => right; simp [charsLt]
          | cons bb bs =>
              simp only [charsLt] at h ⊢
              by_cases hcb : cc.toNat < bb.toNat
              · left; simp [hcb]
              · by_cases hbc : bb.toNat < cc.toNat
                · right
                  by_cases hca : cc.toNat < aa.toNat
                  · have hba : bb.toNat < aa.toNat := by omega
                    simp [hba]
                  · by_cases hac : aa.toNat < cc.toNat
                    · simp [hca, hac] at h
                    · have hba : bb.toNat < aa.toNat := by omega
                      simp [hba]
                · by_cases hca : cc.toNat < aa.toNat
                  · right
                    have hba : bb.toNat < aa.toNat := by omega
                    simp [hba]
                  · by_cases hac : aa.toNat < cc.toNat
                    · simp [hca, hac] at h
                    · simp only [if_neg hca, if_neg hac] at h
                      have hba : ¬ bb.toNat < aa.toNat := by omega
                      have hab : ¬ aa.toNat < bb.toNat := by omega
                      rcases ih as bs h with h1 | h1
                      · left
                        simp [hcb, hbc, h1]
                      · right
                        simp [hba, hab, h1]

theorem strLt_asymm (a b : String) (h : strLt a b = true) : strLt b a = false := by
  simp only [strLt] at h ⊢
  exact charsLt_asymm _ _ h

theorem strLt_lin (c a b : String) (h : strLt c a = true) :
    strLt c b = true ∨ strLt b a = true := by
  simp only [strLt] at h ⊢
  exact charsLt_lin _ _ _ h

theorem scoredLe_total : ∀ x y : String × Nat,
    scoredLe x y = true ∨ scoredLe y x = true := by
  intro x y
  by_cases hs : x.2 = y.2
  · by_cases hlt : strLt y.1 x.1 = true
    · right
      have hax := strLt_asymm _ _ hlt
      simp [scoredLe, hs.symm, hax]
    · left
      simp [scoredLe, hs, hlt]
  · rcases Nat.lt_or_ge x.2 y.2 with h1 | h1
    · right
      simp only [scoredLe, if_neg (Ne.symm hs)]
      simp [h1]
    · left
      have h2 : y.2 < x.2 := by omega
      simp only [scoredLe, if_neg hs]
      simp [h2]

theorem scoredLe_trans : ∀ x y z : String × Nat,
    scoredLe x y = true → scoredLe y z = true → scoredLe x z = true := by
  intro x y z hxy hyz
  by_cases h1 : x.2 = y.2
  · by_cases h2 : y.2 = z.2
    · have h3 : x.2 = z.2 := h1.trans h2
      simp only [scoredLe, if_pos h1] at hxy
      simp only [scoredLe, if_pos h2] at hyz
      simp only [scoredLe, if_pos h3]
      by_cases hzx : strLt z.1 x.1 = true
      · exfalso
        rcases strLt_lin z.1 x.1 y.1 hzx with hc | hc
        · rw [hc] at hyz
          simp at hyz
        · rw [hc] at hxy
          simp at hxy
      · simp [hzx]
    · simp only [scoredLe, if_neg h2] at hyz
      have hlt : z.2 < y.2 := by
        have := of_decide_eq_true hyz
        omega
      have h3 : x.2 ≠ z.2 := by omega
      simp only [scoredLe, if_neg h3]
      have : z.2 < x.2 := by omega
      simp [this]
  · simp only [scoredLe, if_neg h1] at hxy
    have hlt1 : y.2 < x.2 := of_decide_eq_true hxy
    by_cases h2 : y.2 = z.2
    · have h3 : x.2 ≠ z.2 := by omega
      simp only [scoredLe, if_neg h3]
      have : z.2 < x.2 := by omega
      simp [this]
    · simp only [scoredLe, if_neg h2] at hyz
      have hlt2 : z.2 < y.2 := of_decide_eq_true hyz
      have h3 : x.2 ≠ z.2 := by omega
      simp only [scoredLe, if_neg h3]
      have : z.2 < x.2 := by omega
      simp [this]

theorem mem_insertSorted (le : α → α → Bool) (a : α) :
    ∀ (l : List α) (x : α), x ∈ insertSorted le a l ↔ x = a ∨ x ∈ l := by
  intro l
  induction l with
  | nil => intro x; simp [insertSorted]
  | cons b bs ih =>
      intro x
      simp only [insertSorted]
      by_cases hab : le a b = true
      · simp [hab]
      · simp only [if_neg hab, List.mem_cons, ih]
        tauto

theorem mem_stableSort (le : α → α → Bool) :
    ∀ (l : List α) (x : α), x ∈ stableSort le l ↔ x ∈ l := by
  intro l
  induction l with
  | nil => intro x; simp [stableSort]
  | cons b bs ih =>
      intro x
      simp only [stableSort, mem_insertSorted, List.mem_cons, ih]

theorem pairwise_insertSorted (le : α → α → Bool)
    (htot : ∀ a b, le a b = true ∨ le b a = true)
    (htrans : ∀ a b c, le a b = true → le b c = true → le a c = true) (a : α) :
    ∀ l : List α, List.Pairwise (fun x y => le x y = true) l →
      List.Pairwise (fun x y => le x y = true) (insertSorted le a l) := by
  intro l
  induction l with
  | nil => intro _; simp [insertSorted]
  | cons b bs ih =>
      intro h
      rcases List.pairwise_cons.mp h with ⟨hb, hbs⟩
      simp only [insertSorted]
      by_cases hab : le a b = true
      · simp only [if_pos hab]
        refine List.pairwise_cons.mpr ⟨?_, h⟩
        intro z hz
        rcases List.mem_cons.mp hz with rfl | hz2
        · exact hab
        · exact htrans a b z hab (hb z hz2)
      · simp only [if_neg hab]
        refine List.pairwise_cons.mpr ⟨?_, ih hbs⟩
        intro z hz
        rcases (mem_insertSorted le a bs z).mp hz with rfl | hz2
        · rcases htot z b with h1 | h1
          · exact absurd h1 hab
          · exact h1
        · exact hb z hz2

theorem pairwise_stableSort (le : α → α → Bool)
    (htot : ∀ a b, le a b = true ∨ le b a = true)
    (htrans : ∀ a b c, le a b = true → le b c = true → le a c = true) :
    ∀ l : List α, List.Pairwise (fun x y => le x y = true) (stableSort le l) := by
  intro l
  induction l with
  | nil => simp [stableSort]
  | cons b bs ih =>
      simp only [stableSort]
      exact pairwise_insertSorted le htot htrans b _ ih

theorem head_min_of_stableSort (le : α → α → Bool)
    (htot : ∀ a b, le a b = true ∨ le b a = true)
    (htrans : ∀ a b c, le a b = true → le b c = true → le a c = true)
    (l : List α) (h : α) (t : List α) (hsort : stableSort le l = h :: t) :
    ∀ z ∈ l, le h z = true := by
  intro z hz
  have hmem : z ∈ stableSort le l := (mem_stableSort le l z).mpr hz
  rw [hsort] at hmem
  rcases List.mem_cons.mp hmem with rfl | hz2
  · rcases htot z z with h1 | h1 <;> exact h1
  · have hp := pairwise_stableSort le htot htrans l
    rw [hsort] at hp
    exact (List.pairwise_cons.mp hp).1 z hz2

theorem insertSorted_ne_nil (le : α → α → Bool) (a : α) (l : List α) :
    insertSorted le a l ≠ [] := by
  cases l with
  | nil => simp [insertSorted]
  | cons b bs =>
      simp only [insertSorted]
      by_cases hab : le a b = true
      · simp [hab]
      · simp [hab]

/-- Unfolded form of classifyText through the scoring map. -/
theorem classifyText_eq (input : JVal) (labels : List String) :
    classifyText input labels =
      (match (stableSort scoredLe (labels.map (fun l => (l, scoreOf input l)))).head? with
       | some top => ⟨top.1, if top.2 = 2 then mkRat 92 100 else mkRat 67 100⟩
       | none => ⟨"general", mkRat 67 100⟩) := rfl

/-- Characterization of classifyText on a nonempty label list: the
returned label is one of the labels, it is minimal in the comparator
order (maximal score, lexicographic tie-break), and the confidence is
0.92 exactly on a substring hit of the returned label. -/
theorem classifyText_spec (input : JVal) (labels : List String) (hne : labels ≠ []) :
    (classifyText input labels).label ∈ labels ∧
    (∀ l ∈ labels,
      scoredLe ((classifyText input labels).label,
          scoreOf input (classifyText input labels).label) (l, scoreOf input l) = true) ∧
    (classifyText input labels).confidence =
      (if scoreOf input (classifyText input labels).label = 2 then mkRat 92 100
       else mkRat 67 100) := by
  have hmapne : labels.map (fun l => (l, scoreOf input l)) ≠ [] := by
    intro hcon
    exact hne (List.map_eq_nil_iff.mp hcon)
  match hsort : stableSort scoredLe (labels.map (fun l => (l, scoreOf input l))) with
  | [] =>
      exfalso
      cases hl : labels with
      | nil => exact hne hl
      | cons x xs =>
          rw [hl] at hsort
          simp only [List.map, stableSort] at hsort
          exact insertSorted_ne_nil _ _ _ hsort
  | hh :: t =>
      have hres : classifyText input labels =
          ⟨hh.1, if hh.2 = 2 then mkRat 92 100 else mkRat 67 100⟩ := by
        rw [classifyText_eq, hsort]
        rfl
      have hmem : hh ∈ labels.map (fun l => (l, scoreOf input l)) := by
        have : hh ∈ stableSort scoredLe (labels.map (fun l => (l, scoreOf input l))) := by
          rw [hsort]; exact List.mem_cons_self _ _
        exact (mem_stableSort _ _ _).mp this
      rcases List.mem_map.mp hmem with ⟨l0, hl0, hpair⟩
      have hlab : hh.1 = l0 := by rw [← hpair]
      have hscore : hh.2 = scoreOf input l0 := by rw [← hpair]
      refine ⟨?_, ?_, ?_⟩
      · rw [hres]
        simpa [hlab] using hl0
      · intro l hl
        rw [hres]
        have hminl := head_min_of_stableSort scoredLe scoredLe_total scoredLe_trans
          (labels.map (fun l => (l, scoreOf input l))) hh t hsort
          (l, scoreOf input l) (List.mem_map_of_mem _ hl)
        have : (hh.1, scoreOf input hh.1) = hh := by
          rw [hlab, ← hscore, ← hlab]
        simpa [this] using hminl
      · rw [hres]
        have : scoreOf input hh.1 = hh.2 := by rw [hlab, ← hscore]
        simp [this]

theorem isPrefixOf_self : ∀ s : List Char, s.isPrefixOf s = true := by
  intro s
  induction s with
  | nil => rfl
  | cons c cs ih => simp [List.isPrefixOf, ih]

theorem containsSub_self (s : List Char) : containsSub s s = true := by
  cases s with
  | nil => rfl
  | cons c cs => simp [containsSub, isPrefixOf_self]

theorem containsSub_cons (n : List Char) (c : Char) (h : List Char)
    (hc : containsSub n h = true) : containsSub n (c :: h) = true := by
  simp [containsSub, hc]

theorem containsSub_append_left (pre s : List Char) :
    containsSub s (pre ++ s) = true := by
  induction pre with
  | nil => exact containsSub_self s
  | cons c cs ih => exact containsSub_cons _ _ _ ih

theorem resolveTokens_undef : ∀ ts : List String, resolveTokens .undefVal ts = .undefVal := by
  intro ts
  cases ts with
  | nil => rfl
  | cons t rest => rfl

theorem jsNumLt_nan_left (x : JsNum) : jsNumLt .nan x = false := by
  cases x <;> rfl

theorem jsNumLt_nan_right (x : JsNum) : jsNumLt x .nan = false := by
  cases x <;> rfl

theorem jsNumLe_nan_left (x : JsNum) : jsNumLe .nan x = false := by
  cases x <;> rfl

theorem jsNumLe_nan_right (x : JsNum) : jsNumLe x .nan = false := by
  cases x <;> rfl

theorem clamp01_bounds (q : ℚ) : 0 ≤ clamp01 q ∧ clamp01 q ≤ 1 := by
  unfold clamp01
  by_cases h1 : (1 : ℚ) < q
  · simp only [if_pos h1]
    by_cases h2 : (1 : ℚ) < 0
    · norm_num at h2
    · norm_num
  · simp only [if_neg h1]
    by_cases h2 : q < 0
    · simp only [if_pos h2]
      norm_num
    · simp only [if_neg h2]
      exact ⟨le_of_not_lt h2, le_of_not_lt h1⟩

theorem jsGet_jsSet_self (m : Ctx) (k : String) (v : JVal) :
    jsGet (jsSet m k v) k = some v := by
  induction m with
  | nil => simp [jsSet, jsGet]
  | cons p rest ih =>
      obtain ⟨k0, v0⟩ := p
      simp only [jsSet]
      by_cases hk : k0 = k
      · simp [jsGet, hk]
      · simp only [if_neg hk, jsGet, List.find?]
        have : (decide (k0 = k)) = false := by simp [hk]
        simp only [this]
        exact ih

theorem jsGet_jsSet_other (m : Ctx) (k k' : String) (v : JVal) (h : k' ≠ k) :
    jsGet (jsSet m k v) k' = jsGet m k' := by
  induction m with
  | nil => simp [jsSet, jsGet, List.find?, Ne.symm h]
  | cons p rest ih =>
      obtain ⟨k0, v0⟩ := p
      simp only [jsSet]
      by_cases hk : k0 = k
      · subst hk
        simp [jsGet, List.find?, Ne.symm h]
      · simp only [if_neg hk, jsGet, List.find?]
        by_cases hk0 : k0 = k'
        · simp [hk0]
        · have : (decide (k0 = k')) = false := by simp [hk0]
          simp only [this]
          exact ih

theorem JArr.toList_ofList : ∀ l : List JVal, (JArr.ofList l).toList = l := by
  intro l
  induction l with
  | nil => rfl
  | cons v tl ih => simp [JArr.ofList, JArr.toList, ih]

/-
Claim theorems.
-/

/-- C1: evaluation of the Document Validator and the semantic-edit gate
at the failing input of the repository smoke test.  The cyclic document
(the smoke base document plus the back edge e3 from n3 to n2) passes
validateWorkflowDoc with ok true and an empty issue list even though the
topological sort cannot order all of its nodes, and the cycle-producing
connect command is accepted rather than rejected with
"Edit rejected by workflow validator.".  This contradicts the claim and
the repository smoke test, which asserts ok false with an error
mentioning "Workflow graph must be a DAG": the validator has no DAG
check. -/
theorem C1_validator_accepts_cyclic_doc :
    validateWorkflowDocOk smokeCyclicDoc = true ∧
    (collectIssues smokeCyclicDoc).isEmpty = true ∧
    (topo smokeCyclicDoc).length ≠ smokeCyclicDoc.workflow.nodes.length ∧
    connectNodes smokeBaseDoc "n3" "n2" = some smokeCyclicDoc ∧
    applyConnectCommand smokeBaseDoc "n3" "n2" = ⟨true, "Connected n3 to n2."⟩ := by
  refine ⟨by decide, by decide, by decide, rfl, by decide⟩

/-- C3 counterexample: the simulated engine returns a run with status
failed and an empty step sequence on the cyclic smoke document, so a
failed final status does not imply the existence of a failed step. -/
theorem C3_counterexample_cycle_failed_without_step :
    (simulateWorkflow smokeCyclicDoc none).status = "failed" ∧
    (simulateWorkflow smokeCyclicDoc none).steps = [] :=
  ⟨rfl, rfl⟩

/-- C3 (amended to runs that pass the pre-execution DAG check): in both
engines (the loop is stated for every executor, covering the live
executors of the run-workflow function), the step trace is fail-fast:
every step before the last succeeded, a failed step is unique and last,
and the final status is failed exactly when a failed step exists. -/
theorem C3_fail_fast :
    (∀ (exec : WorkflowNode → Ctx → Except String Ctx)
        (outgoing : String → List WorkflowEdge)
        (nodes : List WorkflowNode) (active : List String) (ctx : Ctx),
        FailFastSpec (execLoop exec outgoing nodes active ctx [])) ∧
    (∀ (doc : WorkflowDoc) (input : Option Ctx),
        (topo doc).length = doc.workflow.nodes.length →
        FailFastSpec (simulateWorkflow doc input)) := by
  constructor
  · intro exec outgoing nodes active ctx
    exact execLoop_failFast exec outgoing nodes active ctx [] (by simp)
  · intro doc input hlen
    unfold simulateWorkflow
    rw [if_neg (fun hne => hne hlen)]
    exact execLoop_failFast _ _ _ _ _ [] (by simp)

/-- C3 witness: the fail-fast trace shape holds for the simulated run of
the smoke base document, which passes the DAG check. -/
theorem C3_fail_fast_witness :
    FailFastSpec (simulateWorkflow smokeBaseDoc none) :=
  C3_fail_fast.2 smokeBaseDoc none (by decide)

/-- C4 counterexample: the empty path string does not start with the
dollar character, yet resolveJsonPath returns the whole context for it
(the falsy-path guard of the source treats it like an absent path), not
undefined. -/
theorem C4_counterexample_empty_path :
    resolveJsonPath (.str "whole") (some "") = .str "whole" ∧
    ("" : String).toList.head? ≠ some '$' ∧
    resolveJsonPath (.str "whole") (some "") ≠ .undefVal :=
  ⟨rfl, by decide, by intro h; exact JVal.noConfusion h⟩

/-- C4 (amended: the empty path behaves like an absent path): the Path
Resolver is total and never throws; an absent, empty or dollar-only
path returns the whole context; a nonempty path not starting with the
dollar character resolves to undefined; an all-digit token indexes an
array target, with an out-of-range index resolving to undefined; a
token against an absent object key or a non-object target resolves to
undefined regardless of the remaining tokens; and the round-trip
example of the claim holds. -/
theorem C4_resolveJsonPath_spec :
    (∀ input : JVal, resolveJsonPath input none = input ∧
        resolveJsonPath input (some "$") = input ∧
        resolveJsonPath input (some "") = input) ∧
    (∀ (input : JVal) (p : String), p ≠ "" → p.toList.head? ≠ some '$' →
        resolveJsonPath input (some p) = .undefVal) ∧
    (∀ (xs : JArr) (t : String) (ts : List String), isAllDigits t.toList = true →
        resolveTokens (.arr xs) (t :: ts) =
          resolveTokens ((xs.get (natOfDigits t.toList)).getD .undefVal) ts) ∧
    (∀ (xs : JArr) (t : String) (ts : List String), isAllDigits t.toList = true →
        xs.get (natOfDigits t.toList) = none →
        resolveTokens (.arr xs) (t :: ts) = .undefVal) ∧
    (∀ (fs : JObj) (t : String) (ts : List String), fs.get t = none →
        resolveTokens (.obj fs) (t :: ts) = .undefVal) ∧
    (∀ (t : String) (ts : List String),
        resolveTokens .undefVal (t :: ts) = .undefVal ∧
        resolveTokens .null (t :: ts) = .undefVal ∧
        (∀ b, resolveTokens (.bool b) (t :: ts) = .undefVal) ∧
        (∀ q, resolveTokens (.num q) (t :: ts) = .undefVal) ∧
        (∀ s, resolveTokens (.str s) (t :: ts) = .undefVal)) ∧
    resolveJsonPath
      (.obj (.cons "a" (.obj (.cons "b" (.arr (.cons (.num (mkRat 42 1)) .nil)) .nil)) .nil))
      (some "$.a.b[0]") = .num (mkRat 42 1) := by
  refine ⟨fun input => ⟨rfl, rfl, rfl⟩, ?_, ?_, ?_, ?_, ?_, rfl⟩
  · intro input p hne hhead
    have hps : p ≠ "$" := by
      intro h
      subst h
      exact hhead rfl
    simp only [resolveJsonPath]
    rw [if_neg (by rintro (h | h); exacts [hne h, hps h])]
    rcases hl : p.toList with _ | ⟨c, cs⟩
    · rfl
    · have hc : c ≠ '$' := by
        intro h
        subst h
        rw [hl] at hhead
        exact hhead rfl
      split
      · rename_i heq
        injection heq with h1 h2
        exact absurd h1 hc
      · rfl
  · intro xs t ts hdig
    simp only [resolveTokens, if_pos hdig]
  · intro xs t ts hdig hget
    simp only [resolveTokens, if_pos hdig, hget]
    exact resolveTokens_undef ts
  · intro fs t ts hget
    simp only [resolveTokens, hget]
  · intro t ts
    exact ⟨rfl, rfl, fun b => rfl, fun q => rfl, fun s => rfl⟩

/-- C4 witness: the general clauses applied at concrete inputs: the path
that does not start with the dollar character resolves to undefined, and
an out-of-range numeric index against an array resolves to undefined. -/
theorem C4_resolveJsonPath_spec_witness :
    resolveJsonPath (.num (mkRat 1 1)) (some "nope") = .undefVal ∧
    resolveTokens (.arr (.cons (.num (mkRat 7 1)) .nil)) ["3"] = .undefVal :=
  ⟨C4_resolveJsonPath_spec.2.1 (.num (mkRat 1 1)) "nope" (by decide) (by decide),
   C4_resolveJsonPath_spec.2.2.2.1 (.cons (.num (mkRat 7 1)) .nil) "3" [] (by decide) rfl⟩

/-- C5: the Expression Evaluator is total (false on any text the
condition regex rejects), the equality operators compare the resolved
operands by the strict-equality model, the ordering operators compare
the Number() coercions of both operands, and any ordering comparison
with a NaN coercion on either side is false. -/
theorem C5_evaluateConditionExpression_spec :
    (∀ (ctx : Ctx) (e : String), condMatch e.toList = none →
        evaluateConditionExpression ctx e = false) ∧
    (∀ (ctx : Ctx) (e l r : String), condMatch e.toList = some (l, "==", r) →
        evaluateConditionExpression ctx e =
          opStrictEq (resolveOperand ctx l) (resolveOperand ctx r)) ∧
    (∀ (ctx : Ctx) (e l r : String), condMatch e.toList = some (l, "!=", r) →
        evaluateConditionExpression ctx e =
          ! opStrictEq (resolveOperand ctx l) (resolveOperand ctx r)) ∧
    (∀ (ctx : Ctx) (e l r : String), condMatch e.toList = some (l, ">", r) →
        evaluateConditionExpression ctx e =
          jsNumLt (toNumberOp (resolveOperand ctx r)) (toNumberOp (resolveOperand ctx l))) ∧
    (∀ (ctx : Ctx) (e l r : String), condMatch e.toList = some (l, "<", r) →
        evaluateConditionExpression ctx e =
          jsNumLt (toNumberOp (resolveOperand ctx l)) (toNumberOp (resolveOperand ctx r))) ∧
    (∀ (ctx : Ctx) (e l r : String), condMatch e.toList = some (l, ">=", r) →
        evaluateConditionExpression ctx e =
          jsNumLe (toNumberOp (resolveOperand ctx r)) (toNumberOp (resolveOperand ctx l))) ∧
    (∀ (ctx : Ctx) (e l r : String), condMatch e.toList = some (l, "<=", r) →
        evaluateConditionExpression ctx e =
          jsNumLe (toNumberOp (resolveOperand ctx l)) (toNumberOp (resolveOperand ctx r))) ∧
    (∀ (ctx : Ctx) (e l op r : String), condMatch e.toList = some (l, op, r) →
        (op = ">" ∨ op = "<" ∨ op = ">=" ∨ op = "<=") →
        (toNumberOp (resolveOperand ctx l) = .nan ∨
         toNumberOp (resolveOperand ctx r) = .nan) →
        evaluateConditionExpression ctx e = false) := by
  refine ⟨?_, ?_, ?_, ?_, ?_, ?_, ?_, ?_⟩
  · intro ctx e h
    simp only [evaluateConditionExpression]
    rw [h]
  · intro ctx e l r h
    simp only [evaluateConditionExpression]
    rw [h]
    rfl
  · intro ctx e l r h
    simp only [evaluateConditionExpression]
    rw [h]
    rfl
  · intro ctx e l r h
    simp only [evaluateConditionExpression]
    rw [h]
    rfl
  · intro ctx e l r h
    simp only [evaluateConditionExpression]
    rw [h]
    rfl
  · intro ctx e l r h
    simp only [evaluateConditionExpression]
    rw [h]
    rfl
  · intro ctx e l r h
    simp only [evaluateConditionExpression]
    rw [h]
    rfl
  · intro ctx e l op r h hop hnan
    simp only [evaluateConditionExpression]
    rw [h]
    rcases hop with rfl | rfl | rfl | rfl
    · show jsNumLt (toNumberOp (resolveOperand ctx r)) (toNumberOp (resolveOperand ctx l)) = false
      rcases hnan with h1 | h1
      · rw [h1]; exact jsNumLt_nan_right _
      · rw [h1]; exact jsNumLt_nan_left _
    · show jsNumLt (toNumberOp (resolveOperand ctx l)) (toNumberOp (resolveOperand ctx r)) = false
      rcases hnan with h1 | h1
      · rw [h1]; exact jsNumLt_nan_left _
      · rw [h1]; exact jsNumLt_nan_right _
    · show jsNumLe (toNumberOp (resolveOperand ctx r)) (toNumberOp (resolveOperand ctx l)) = false
      rcases hnan with h1 | h1
      · rw [h1]; exact jsNumLe_nan_right _
      · rw [h1]; exact jsNumLe_nan_left _
    · show jsNumLe (toNumberOp (resolveOperand ctx l)) (toNumberOp (resolveOperand ctx r)) = false
      rcases hnan with h1 | h1
      · rw [h1]; exact jsNumLe_nan_left _
      · rw [h1]; exact jsNumLe_nan_right _

/-- C5 witness: the clauses applied at concrete inputs: a text the
grammar rejects evaluates to false, and an ordering comparison against a
non-numeric operand (NaN coercion) evaluates to false. -/
theorem C5_evaluateConditionExpression_spec_witness :
    evaluateConditionExpression [] "garbage" = false ∧
    evaluateConditionExpression [] "a > 1" = false :=
  ⟨C5_evaluateConditionExpression_spec.1 [] "garbage" rfl,
   C5_evaluateConditionExpression_spec.2.2.2.2.2.2.2 [] "a > 1" "a" ">" "1"
     (by decide) (Or.inl rfl) (Or.inl rfl)⟩

/-- C6: the simulated classifier is a pure deterministic function: on a
nonempty label list the returned label is one of the labels and beats
every label in the comparator order (strictly higher containment score,
or equal score and not lexicographically greater — the stable-sort
tie-break), the confidence is 0.92 exactly when the returned label
occurs in the lowercased stringified input and 0.67 otherwise, and two
runs on identical input yield the identical result record. -/
theorem C6_classifyText_deterministic (input : JVal) (labels : List String)
    (hne : labels ≠ []) :
    (classifyText input labels).label ∈ labels ∧
    (∀ l ∈ labels,
        scoreOf input l < scoreOf input (classifyText input labels).label ∨
        (scoreOf input l = scoreOf input (classifyText input labels).label ∧
         strLt l (classifyText input labels).label = false)) ∧
    (classifyText input labels).confidence =
      (if strIncludes (jsToLower (jsStringOfInput input))
           (jsToLower (classifyText input labels).label)
       then mkRat 92 100 else mkRat 67 100) ∧
    classifyText input labels = classifyText input labels := by
  obtain ⟨hmem, hmin, hconf⟩ := classifyText_spec input labels hne
  refine ⟨hmem, ?_, ?_, rfl⟩
  · intro l hl
    have h := hmin l hl
    by_cases hs : scoreOf input l = scoreOf input (classifyText input labels).label
    · right
      refine ⟨hs, ?_⟩
      simp only [scoredLe] at h
      rw [if_pos hs.symm] at h
      simpa using h
    · left
      simp only [scoredLe] at h
      rw [if_neg (Ne.symm hs)] at h
      exact of_decide_eq_true h
  · rw [hconf]
    by_cases hhit : strIncludes (jsToLower (jsStringOfInput input))
        (jsToLower (classifyText input labels).label) = true
    · have : scoreOf input (classifyText input labels).label = 2 := by
        simp [scoreOf, hhit]
      simp [this, hhit]
    · have : scoreOf input (classifyText input labels).label = 1 := by
        simp only [scoreOf]
        rw [if_neg hhit]
      rw [this]
      simp only [Bool.not_eq_true] at hhit
      rw [hhit]
      norm_num

/-- C6 witness: the characterization applied at a concrete input and
label pair (substring hit on the label lead). -/
theorem C6_classifyText_deterministic_witness :
    (["lead", "admin"] : List String) ≠ [] ∧
    (classifyText (.str "a lead arrived") ["lead", "admin"]).label ∈ ["lead", "admin"] :=
  ⟨by decide,
   (C6_classifyText_deterministic (.str "a lead arrived") ["lead", "admin"] (by decide)).1⟩

/-- C7: for every live-mode classify response text, either the response
yields an extractable JSON object whose label is literally a member of
the configured list and whose confidence coerces to a finite number, in
which case the result is that label with the confidence clamped into
[0, 1]; or the result equals the deterministic simulated classifier on
the same input and labels.  The function is total, so the node never
fails on response malformation. -/
theorem C7_classifyTextLive_spec (input : JVal) (labels : List String) (content : String) :
    (∃ (fs : JObj) (q : ℚ),
        parseJsonObjectFromText content = some fs ∧
        labels.contains (liveLabelOf fs) = true ∧
        liveConfidenceOf fs = .val q ∧
        classifyTextLive input labels content = ⟨liveLabelOf fs, clamp01 q⟩ ∧
        0 ≤ clamp01 q ∧ clamp01 q ≤ 1) ∨
    classifyTextLive input labels content = classifyText input labels := by
  by_cases h0 : labels.length = 0
  · right
    simp [classifyTextLive, h0]
  · rcases hp : parseJsonObjectFromText content with _ | fs
    · right
      simp [classifyTextLive, h0, hp]
    · by_cases hc : labels.contains (liveLabelOf fs) = true
      · have hm : liveLabelOf fs ∈ labels := by simpa using hc
        rcases hq : liveConfidenceOf fs with _ | pos | q
        · right
          simp [classifyTextLive, h0, hp, hq, hm]
        · right
          simp [classifyTextLive, h0, hp, hq, hm]
        · left
          refine ⟨fs, q, rfl, hc, hq, ?_, clamp01_bounds q⟩
          simp [classifyTextLive, h0, hp, hq, hm]
      · have hm : liveLabelOf fs ∉ labels := by simpa using hc
        right
        simp [classifyTextLive, h0, hp, hm]

/-- C8: in live mode a db_save node whose configured table is a string
whose trim is nonempty and different from va_items errors with a message
referencing the unsupported table, for every insert collaborator — the
insert is never consulted, so the error precedes any insert attempt; an
absent or blank table name defaults to the permitted table instead of
failing; a node executor error makes the run status failed; and the
failed-run record persisted by the catch branch carries status failed. -/
theorem C8_db_save_unsupported_table :
    (∀ (insert : String → Ctx → Except String JVal) (config out : Ctx) (tbl : String),
        jsGet config "table" = some (.str tbl) →
        jsTrim tbl ≠ "" → jsTrim tbl ≠ "va_items" →
        dbSaveLiveBranch insert config out =
          .error ("db_save unsupported table: " ++ jsTrim tbl)) ∧
    (∀ tbl : String,
        strIncludes ("db_save unsupported table: " ++ jsTrim tbl) (jsTrim tbl) = true) ∧
    (∀ config : Ctx, jsGet config "table" = none → dbSaveLiveTable config = .ok "va_items") ∧
    (∀ (config : Ctx) (tbl : String), jsGet config "table" = some (.str tbl) →
        jsTrim tbl = "" → dbSaveLiveTable config = .ok "va_items") ∧
    (∀ (exec : WorkflowNode → Ctx → Except String Ctx)
        (outgoing : String → List WorkflowEdge)
        (node : WorkflowNode) (rest : List WorkflowNode)
        (active : List String) (ctx : Ctx) (e : String),
        node.id ∈ active → exec node ctx = .error e →
        (execLoop exec outgoing (node :: rest) active ctx []).status = "failed") ∧
    (∀ (i : JVal) (c : Ctx) (s : List StepResult), (failedRunInsert i c s).status = "failed") := by
  refine ⟨?_, ?_, ?_, ?_, ?_, fun i c s => rfl⟩
  · intro insert config out tbl hget hne hnva
    have htab : dbSaveLiveTable config =
        .error ("db_save unsupported table: " ++ jsTrim tbl) := by
      simp only [dbSaveLiveTable, hget]
      rw [if_pos hne, if_pos hnva]
    simp only [dbSaveLiveBranch, htab]
  · intro tbl
    have hdata : ("db_save unsupported table: " ++ jsTrim tbl).toList =
        ("db_save unsupported table: ").toList ++ (jsTrim tbl).toList := by
      simp [String.toList]
    simp only [strIncludes, hdata]
    exact containsSub_append_left _ _
  · intro config hget
    simp only [dbSaveLiveTable, hget]
    rfl
  · intro config tbl hget htrim
    simp only [dbSaveLiveTable, hget, htrim]
    rfl
  · intro exec outgoing node rest active ctx e hmem herr
    rw [execLoop, if_pos hmem, herr]

/-- C8 witness: the table guard applied at the concrete failing table of
the spec scenario, with a trivial insert collaborator. -/
theorem C8_db_save_unsupported_table_witness :
    dbSaveLiveBranch (fun _ _ => .ok .null)
        [("table", .str "definitely_missing_table")] [] =
      .error ("db_save unsupported table: " ++ jsTrim "definitely_missing_table") :=
  C8_db_save_unsupported_table.1 (fun _ _ => .ok .null)
    [("table", .str "definitely_missing_table")] [] "definitely_missing_table"
    rfl (by decide) (by decide)

/-- C9: for a condition node whose config carries a string default
output, a true expression selects the first declared output port whose
id differs from the default (the first declared output when every port
equals the default), and a false or malformed expression selects the
default output.  The Expression Evaluator is applied to the context the
node receives (the post-upstream context in the engines). -/
theorem C9_selectConditionOutput_spec (node : WorkflowNode) (ctx : Ctx) (d : String)
    (hd : jsGet node.config "default_output" = some (.str d)) :
    (evaluateConditionExpression ctx
        (jsPropKey (configOr node.config "expression" (.str ""))) = true →
      selectConditionOutput node ctx =
        (match (node.outputs.map (·.id)).find? (fun i => decide (i ≠ d)) with
         | some i => some i
         | none => (node.outputs.map (·.id)).head?)) ∧
    (evaluateConditionExpression ctx
        (jsPropKey (configOr node.config "expression" (.str ""))) = false →
      selectConditionOutput node ctx = some d) := by
  constructor
  · intro hev
    simp only [selectConditionOutput, hd, hev, if_true, ne_eq, Option.some.injEq]
  · intro hev
    simp only [selectConditionOutput, hd, hev, Bool.false_eq_true, if_false]

/-- C9 witness: the spec example: expression on the score field with
default output false selects the true port on score 0.9 and the false
port on score 0.1. -/
theorem C9_selectConditionOutput_spec_witness :
    selectConditionOutput condExampleNode [("score", .num (mkRat 9 10))] = some "true" ∧
    selectConditionOutput condExampleNode [("score", .num (mkRat 1 10))] = some "false" :=
  ⟨((C9_selectConditionOutput_spec condExampleNode
      [("score", .num (mkRat 9 10))] "false" rfl).1 (by decide)).trans rfl,
   ((C9_selectConditionOutput_spec condExampleNode
      [("score", .num (mkRat 1 10))] "false" rfl).2 (by decide)).trans rfl⟩

/-- Unfolded form of runNode on a classify node: the resolved input is
classified against the extracted labels and the label and confidence are
written to the configured keys. -/
theorem runNode_classify (node : WorkflowNode) (ctx : Ctx)
    (htype : node.type = "ai.classify") :
    runNode node ctx =
      (resolveJsonPathDyn (.obj (JObj.ofList ctx))
          (configOr node.config "input_path" (.str "$.input"))).map (fun input =>
        jsSet
          (jsSet ctx (jsPropKey (configOr node.config "output_key" (.str "label")))
            (.str (classifyText input (classifyLabels node.config)).label))
          (jsPropKey (configOr node.config "confidence_key" (.str "confidence")))
          (.num (classifyText input (classifyLabels node.config)).confidence)) := by
  cases hres : resolveJsonPathDyn (.obj (JObj.ofList ctx))
      (configOr node.config "input_path" (.str "$.input")) with
  | error e =>
      simp [runNode, htype, hres, Except.map]
  | ok input =>
      simp [runNode, htype, hres, Except.map]

/-- C10: a classify node whose configured labels extract to the empty
list (missing, not an array, or an array without strings) succeeds and
writes the label "general" with confidence 0.67 to the configured
output keys — a label drawn from no configured list — in the simulated
engine; the live classifier returns the same result for every response
text, so the AI call result is never consulted. -/
theorem C10_classify_empty_labels :
    (∀ input : JVal, classifyText input [] = ⟨"general", mkRat 67 100⟩) ∧
    ("general" ∉ ([] : List String)) ∧
    (∀ (input : JVal) (c1 c2 : String),
        classifyTextLive input [] c1 = classifyTextLive input [] c2) ∧
    (∀ (input : JVal) (c : String), classifyTextLive input [] c = classifyText input []) ∧
    (∀ (node : WorkflowNode) (ctx out : Ctx),
        node.type = "ai.classify" →
        classifyLabels node.config = [] →
        jsPropKey (configOr node.config "output_key" (.str "label")) ≠
          jsPropKey (configOr node.config "confidence_key" (.str "confidence")) →
        runNode node ctx = .ok out →
        jsGet out (jsPropKey (configOr node.config "output_key" (.str "label"))) =
          some (.str "general") ∧
        jsGet out (jsPropKey (configOr node.config "confidence_key" (.str "confidence"))) =
          some (.num (mkRat 67 100))) := by
  refine ⟨fun input => rfl, by simp, fun input c1 c2 => rfl, fun input c => rfl, ?_⟩
  intro node ctx out htype hlabels hkeys hrun
  rw [runNode_classify node ctx htype] at hrun
  cases hres : resolveJsonPathDyn (.obj (JObj.ofList ctx))
      (configOr node.config "input_path" (.str "$.input")) with
  | error e =>
      rw [hres] at hrun
      simp [Except.map] at hrun
  | ok input =>
      rw [hres] at hrun
      simp only [Except.map, Except.ok.injEq] at hrun
      rw [hlabels] at hrun
      have hct : classifyText input ([] : List String) = ⟨"general", mkRat 67 100⟩ := rfl
      rw [hct] at hrun
      rw [← hrun]
      constructor
      · rw [jsGet_jsSet_other _ _ _ _ hkeys, jsGet_jsSet_self]
      · rw [jsGet_jsSet_self]

/-- C10 witness: the empty-labels classify node executed on a concrete
context writes general and 0.67 to the configured keys. -/
theorem C10_classify_empty_labels_witness :
    jsGet [("input", .str "hi"), ("label", .str "general"),
        ("confidence", .num (mkRat 67 100))] "label" = some (.str "general") ∧
    jsGet [("input", .str "hi"), ("label", .str "general"),
        ("confidence", .num (mkRat 67 100))] "confidence" = some (.num (mkRat 67 100)) :=
  C10_classify_empty_labels.2.2.2.2 classifyEmptyLabelsNode [("input", .str "hi")]
    [("input", .str "hi"), ("label", .str "general"), ("confidence", .num (mkRat 67 100))]
    rfl rfl (by decide) rfl

/-- A pointwise-successful effectful map succeeds with the pure map. -/
theorem exceptMapList_ok {α β : Type} (f : α → Except String β) (g : α → β) :
    ∀ l : List α, (∀ x ∈ l, f x = .ok (g x)) →
      exceptMapList f l = .ok (l.map g)
  | [], _ => rfl
  | x :: xs, h => by
      have hx : f x = .ok (g x) := h x (List.mem_cons_self x xs)
      have hxs := exceptMapList_ok f g xs (fun y hy => h y (List.mem_cons_of_mem x hy))
      simp [exceptMapList, hx, hxs, bind, Except.bind]

/-- Unfolded form of runNode on an export node: the resolved data is
recorded together with the configured format value taken verbatim, the
filename defaulting from it, and content bound through the serializer —
the CSV serializer, which throws on an array whose first element is null
or undefined, exactly when the configured format is the string csv, and
pretty JSON otherwise. -/
theorem runNode_export (node : WorkflowNode) (ctx : Ctx)
    (htype : node.type = "output.export") :
    runNode node ctx = (do
      let data ← resolveJsonPathDyn (.obj (JObj.ofList ctx))
        (configOr node.config "input_path" (.str "$.input"))
      let content ←
        if isStrVal (configOr node.config "format" (.str "json")) "csv" then toCsv data
        else .ok (match jsonStringifyPretty 0 data with
          | some s => .str s
          | none => .undefVal)
      .ok (jsSet ctx "export" (.obj (JObj.ofList
        [("format", configOr node.config "format" (.str "json")),
         ("filename", configOr node.config "filename"
           (.str ("export." ++ jsPropKey (configOr node.config "format" (.str "json"))))),
         ("data", data),
         ("content", content)])))) := by
  cases hres : resolveJsonPathDyn (.obj (JObj.ofList ctx))
      (configOr node.config "input_path" (.str "$.input")) with
  | error e =>
      simp [runNode, htype, hres, bind, Except.bind, pure, Except.pure]
  | ok data =>
      cases hcontent : (if isStrVal (configOr node.config "format" (.str "json")) "csv"
          then toCsv data
          else .ok (match jsonStringifyPretty 0 data with
            | some s => .str s
            | none => .undefVal)) with
      | error e =>
          simp [runNode, htype, hres, hcontent, bind, Except.bind, pure, Except.pure]
      | ok content =>
          simp [runNode, htype, hres, hcontent, bind, Except.bind, pure, Except.pure]

/-- C2 counterexample: the simulated engine executes an export node
configured with format xml and records the format string xml verbatim in
the resulting export value — not json or csv as the claim states — while
still serializing the content as pretty-printed JSON without throwing. -/
theorem C2_counterexample_sim_export_xml :
    runNode exportXmlNode [("input", .str "hello")] =
      .ok [("input", .str "hello"),
           ("export", .obj (JObj.ofList
             [("format", .str "xml"),
              ("filename", .str "export.xml"),
              ("data", .str "hello"),
              ("content", .str "\"hello\"")]))] ∧
    (JVal.str "xml" ≠ .str "json") ∧ (JVal.str "xml" ≠ .str "csv") :=
  ⟨rfl, by simp, by simp⟩

/-- C2 (amended: only the live engine normalizes the format; the
simulated engine records the configured format value verbatim): the live
export format is always exactly json or csv, with any format whose
lowercased trim differs from csv (such as xml) coerced to json; a
successful live export records that normalized format and a content
value the serializer for it produced; the simulated export records the
configured format value unchanged, serializes as CSV exactly when that
value is the string csv and as pretty JSON otherwise, and when the CSV
serializer throws the node fails with that error in either engine; CSV
serialization of a nonempty array of objects takes the first object's
keys as the header row and wraps every following cell in double quotes
with internal double quotes doubled, while an array whose first element
is null or undefined throws the Object.keys TypeError; and a non-array
value serializes as pretty JSON regardless of the requested format (an
undefined value propagates the undefined serialization result). -/
theorem C2_export_format_spec :
    (∀ config : Ctx, exportLiveFormat config = "json" ∨ exportLiveFormat config = "csv") ∧
    (∀ (config : Ctx) (s : String), jsGet config "format" = some (.str s) →
        jsTrim (jsToLower s) ≠ "csv" → exportLiveFormat config = "json") ∧
    (∀ (insertExport : String → JVal → Except String JVal) (config out out' : Ctx),
        exportLiveBranch insertExport config out = .ok out' →
        ∃ (data content expId : JVal),
          resolveJsonPathDyn (.obj (JObj.ofList out))
            (configOr config "input_path" (.str "$.input")) = .ok data ∧
          (if exportLiveFormat config = "csv" then toCsv data
           else .ok (match jsonStringifyPretty 0 data with
             | some s => .str s
             | none => .undefVal)) = .ok content ∧
          jsGet out' "export" = some (.obj (JObj.ofList
            [("format", .str (exportLiveFormat config)),
             ("filename", configOr config "filename"
               (.str ("export." ++ exportLiveFormat config))),
             ("content", content),
             ("export_id", expId)]))) ∧
    (∀ (insertExport : String → JVal → Except String JVal) (config out : Ctx)
        (data : JVal) (e : String),
        resolveJsonPathDyn (.obj (JObj.ofList out))
          (configOr config "input_path" (.str "$.input")) = .ok data →
        exportLiveFormat config = "csv" →
        toCsv data = .error e →
        exportLiveBranch insertExport config out = .error e) ∧
    (∀ (node : WorkflowNode) (ctx : Ctx) (data content : JVal),
        node.type = "output.export" →
        resolveJsonPathDyn (.obj (JObj.ofList ctx))
          (configOr node.config "input_path" (.str "$.input")) = .ok data →
        (if isStrVal (configOr node.config "format" (.str "json")) "csv" then toCsv data
         else .ok (match jsonStringifyPretty 0 data with
           | some s => .str s
           | none => .undefVal)) = .ok content →
        runNode node ctx = .ok (jsSet ctx "export" (.obj (JObj.ofList
          [("format", configOr node.config "format" (.str "json")),
           ("filename", configOr node.config "filename"
             (.str ("export." ++ jsPropKey (configOr node.config "format" (.str "json"))))),
           ("data", data),
           ("content", content)])))) ∧
    (∀ (node : WorkflowNode) (ctx : Ctx) (data : JVal) (e : String),
        node.type = "output.export" →
        resolveJsonPathDyn (.obj (JObj.ofList ctx))
          (configOr node.config "input_path" (.str "$.input")) = .ok data →
        isStrVal (configOr node.config "format" (.str "json")) "csv" = true →
        toCsv data = .error e →
        runNode node ctx = .error e) ∧
    (∀ (fs : JObj) (rows : List JVal),
        (∀ x ∈ rows, ∃ gs : JObj, x = .obj gs) →
        toCsv (.arr (JArr.ofList (.obj fs :: rows))) = .ok (.str (String.intercalate "\n"
          (String.intercalate "," (fs.toList.map (·.1)) ::
           (JVal.obj fs :: rows).map (fun row => String.intercalate ","
             ((fs.toList.map (·.1)).map
               (fun h => "\"" ++ csvEscape (csvCellRaw row h) ++ "\""))))))) ∧
    (∀ rows : List JVal,
        toCsv (.arr (JArr.ofList (.null :: rows))) =
          .error "TypeError: Cannot convert undefined or null to object" ∧
        toCsv (.arr (JArr.ofList (.undefVal :: rows))) =
          .error "TypeError: Cannot convert undefined or null to object") ∧
    (∀ v : JVal, (∀ xs, v ≠ .arr xs) →
        toCsv v = .ok (match jsonStringifyPretty 0 v with
          | some s => .str s
          | none => .undefVal)) := by
  refine ⟨?_, ?_, ?_, ?_, ?_, ?_, ?_, ?_, ?_⟩
  · intro config
    by_cases h : (match jsGet config "format" with
        | some (.str s) => jsTrim (jsToLower s)
        | _ => "json") = "csv"
    · right
      simp only [exportLiveFormat]
      rw [if_pos h]
    · left
      simp only [exportLiveFormat]
      rw [if_neg h]
  · intro config s hget hne
    simp only [exportLiveFormat, hget]
    rw [if_neg hne]
  · intro insertExport config out out' hok
    cases hres : resolveJsonPathDyn (.obj (JObj.ofList out))
        (configOr config "input_path" (.str "$.input")) with
    | error e =>
        exfalso
        simp [exportLiveBranch, hres, bind, Except.bind] at hok
    | ok data =>
        simp only [exportLiveBranch, hres, bind, Except.bind, pure, Except.pure] at hok
        by_cases hfmt : exportLiveFormat config = "csv"
        · rw [if_pos hfmt] at hok
          cases hcsv : toCsv data with
          | error e =>
              exfalso
              simp [hcsv] at hok
          | ok content =>
              simp only [hcsv] at hok
              cases hins : insertExport (exportLiveFormat config) content with
              | error msg =>
                  exfalso
                  simp [hins] at hok
              | ok expId =>
                  simp only [hins] at hok
                  refine ⟨data, content, expId, rfl, ?_, ?_⟩
                  · rw [if_pos hfmt]
                    exact hcsv
                  · have h := Except.ok.inj hok
                    subst h
                    rw [jsGet_jsSet_self]
        · rw [if_neg hfmt] at hok
          cases hins : insertExport (exportLiveFormat config)
              (match jsonStringifyPretty 0 data with
               | some s => JVal.str s
               | none => JVal.undefVal) with
          | error msg =>
              exfalso
              simp [hins] at hok
          | ok expId =>
              simp only [hins] at hok
              refine ⟨data, (match jsonStringifyPretty 0 data with
                | some s => JVal.str s
                | none => JVal.undefVal), expId, rfl, ?_, ?_⟩
              · rw [if_neg hfmt]
              · have h := Except.ok.inj hok
                subst h
                rw [jsGet_jsSet_self]
  · intro insertExport config out data e hres hfmt herr
    simp [exportLiveBranch, hres, hfmt, herr, bind, Except.bind]
  · intro node ctx data content htype hres hcontent
    rw [runNode_export node ctx htype]
    simp only [hres, bind, Except.bind, pure, Except.pure]
    cases hfmt : isStrVal (configOr node.config "format" (.str "json")) "csv" with
    | true =>
        simp only [hfmt, if_true] at hcontent ⊢
        simp [hcontent]
    | false =>
        simp only [hfmt] at hcontent ⊢
        simp only [Bool.false_eq_true, if_false] at hcontent ⊢
        simp [Except.ok.inj hcontent]
  · intro node ctx data e htype hres hfmt herr
    rw [runNode_export node ctx htype]
    simp [hres, hfmt, herr, bind, Except.bind]
  · intro fs rows hobj
    have hrow : ∀ row ∈ (JVal.obj fs :: rows),
        (exceptMapList (csvCell row) (fs.toList.map (·.1))).map (String.intercalate ",") =
          .ok (String.intercalate ","
            ((fs.toList.map (·.1)).map
              (fun h => "\"" ++ csvEscape (csvCellRaw row h) ++ "\""))) := by
      intro row hr
      have hex : ∃ gs : JObj, row = .obj gs := by
        rcases List.mem_cons.mp hr with heq | hmem
        · exact ⟨fs, heq⟩
        · exact hobj row hmem
      rcases hex with ⟨gs, rfl⟩
      rw [exceptMapList_ok (csvCell (.obj gs))
        (fun h => "\"" ++ csvEscape (csvCellRaw (.obj gs) h) ++ "\"")
        (fs.toList.map (·.1)) (fun h _ => rfl)]
      rfl
    have hlines := exceptMapList_ok
      (fun row => (exceptMapList (csvCell row) (fs.toList.map (·.1))).map
        (String.intercalate ","))
      (fun row => String.intercalate ","
        ((fs.toList.map (·.1)).map
          (fun h => "\"" ++ csvEscape (csvCellRaw row h) ++ "\"")))
      (JVal.obj fs :: rows) hrow
    simp [toCsv, JArr.ofList, JArr.toList, JArr.toList_ofList, jsObjectKeys,
      hlines, bind, Except.bind]
  · intro rows
    constructor
    · simp [toCsv, JArr.ofList, JArr.toList, JArr.toList_ofList, jsObjectKeys,
        bind, Except.bind]
    · simp [toCsv, JArr.ofList, JArr.toList, JArr.toList_ofList, jsObjectKeys,
        bind, Except.bind]
  · intro v hna
    cases v with
    | arr xs => exact absurd rfl (hna xs)
    | undefVal => rfl
    | null => rfl
    | bool b => rfl
    | num q => rfl
    | str s => rfl
    | obj fs => rfl

/-- C2 witness: the amended simulated-export clause applied at the xml
export node and a concrete context (the non-csv serializer succeeding
with the pretty JSON of the string), and the live normalization applied
at the xml format string. -/
theorem C2_export_format_spec_witness :
    runNode exportXmlNode [("input", .str "hello")] =
      .ok (jsSet [("input", .str "hello")] "export" (.obj (JObj.ofList
        [("format", configOr exportXmlNode.config "format" (.str "json")),
         ("filename", configOr exportXmlNode.config "filename"
           (.str ("export." ++ jsPropKey (configOr exportXmlNode.config "format" (.str "json"))))),
         ("data", .str "hello"),
         ("content", .str "\"hello\"")]))) ∧
    exportLiveFormat [("format", .str "xml")] = "json" :=
  ⟨C2_export_format_spec.2.2.2.2.1 exportXmlNode [("input", .str "hello")]
     (.str "hello") (.str "\"hello\"") rfl rfl rfl,
   C2_export_format_spec.2.1 [("format", .str "xml")] "xml" rfl (by decide)⟩

end Vyntra
